import Mathlib

/-!
Verification of the spreadsheet/CSV ingestion pipeline of the Roadmaps backend.

The development shallowly embeds the three ingestion scripts
(`excelImport.js`, `spreadsheetConverter.js`, `bulkUpload.js`) and the
roadmap-item controller. Spreadsheet cells are modelled as strings (the
scripts call `toString()` on every cell before use); a sheet is a list of
rows, each row a list of cells, exactly the shape produced by
`XLSX.utils.sheet_to_json(ws, { header: 1, defval: '' })`. JavaScript
truthiness of a cell string is `cell ≠ ""`.
-/

namespace RoadmapsBackend

/-- Whitespace characters removed by JavaScript `String.prototype.trim`
(restricted to the ASCII whitespace that can occur in spreadsheet cells). -/
def isWsChar (c : Char) : Bool := c = ' ' || c = '\t' || c = '\n' || c = '\r'

/-- Trim whitespace from both ends of a character list. -/
def trimChars (l : List Char) : List Char :=
  ((l.dropWhile isWsChar).reverse.dropWhile isWsChar).reverse

/-- JavaScript `s.trim()`. -/
def trimStr (s : String) : String := String.mk (trimChars s.data)

/-- JavaScript `s.includes(c)` for a single character. -/
def hasChar (s : String) (c : Char) : Bool := s.data.contains c

/-- `startsWithChars pat l` holds when `pat` is a prefix of `l`. -/
def startsWithChars : List Char → List Char → Bool
  | [], _ => true
  | _ :: _, [] => false
  | p :: ps, c :: cs => p = c && startsWithChars ps cs

/-- `hasSubChars pat l` holds when `pat` occurs contiguously inside `l`. -/
def hasSubChars (pat : List Char) : List Char → Bool
  | [] => startsWithChars pat []
  | c :: cs => startsWithChars pat (c :: cs) || hasSubChars pat cs

/-- JavaScript `s.includes(pat)` (substring containment). -/
def strHasSub (s pat : String) : Bool := hasSubChars pat.data s.data

/-- JavaScript `s.toLowerCase()`, modelled character-wise. -/
def lc (s : String) : String := String.mk (s.data.map Char.toLower)

/-- Split a character list at every `'\n'`. -/
def splitNl : List Char → List (List Char)
  | [] => [[]]
  | c :: cs =>
    if c = '\n' then [] :: splitNl cs
    else
      match splitNl cs with
      | [] => [[c]]
      | l :: ls => (c :: l) :: ls

/-- Split a string at every line feed.  Together with the trimming below this
implements the scripts' `text.split(/\r?\n/)` (the optional carriage return
left at the end of a segment is whitespace and disappears under `trim`). -/
def splitLinesJS (s : String) : List String := (splitNl s.data).map String.mk

/-- The scripts' `text.split(/\r?\n/).map(s => s.trim()).filter(s => s !== '')`. -/
def splitTrimFilter (s : String) : List String :=
  ((splitLinesJS s).map trimStr).filter (fun t => t ≠ "")

/-- Append `x` to `xs` unless an equal entry is already present: the scripts'
`if (!xs.some(e => e.name === x)) xs.push({name: x})` idiom. -/
def addIfAbsent (xs : List String) (x : String) : List String :=
  if xs.contains x then xs else xs ++ [x]

/-- First-occurrence deduplication: keeps the first copy of every element, in
order. -/
def firstDedup (l : List String) : List String := l.foldl addIfAbsent []

/-- `normalizeStatus` as defined identically in all three scripts. -/
def normalizeStatus (status : String) : String :=
  if status = "" then "Yet to Start"
  else
    let statusStr := lc status
    if strHasSub statusStr "complete" || strHasSub statusStr "done" ||
        strHasSub statusStr "finish" then "Completed"
    else if strHasSub statusStr "progress" || strHasSub statusStr "ongoing" ||
        strHasSub statusStr "partial" then "In Progress"
    else "Yet to Start"

/-- One roadmap item (`RoadmapItemSchema`): sub-topics and projects are lists
of `{name}` wrappers in the schema, modelled here by their name strings. -/
structure RoadmapItem where
  topic : String
  subTopics : List String
  projects : List String
  completionStatus : String
deriving DecidableEq, Repr

/-- The custom display headers stored with a tech stack. -/
structure HeadersRec where
  topic : String
  subTopics : String
  projects : String
  status : String
deriving DecidableEq, Repr

/-- Resolved column indices for one sheet of the workbook import path. -/
structure Cols where
  topicIdx : Nat
  subIdx : Option Nat
  projIdx : Option Nat
  statusIdx : Option Nat
deriving DecidableEq, Repr

/-- `row[i]`; out-of-range access yields `''` (the scripts read such cells as
`undefined`/`''`, which are both falsy and stringify to the empty cell). -/
def cellAt (row : List String) (i : Nat) : String := row.getD i ""

/-- `row[i]` through an optional column index (`-1` in the scripts). -/
def optCell (row : List String) : Option Nat → String
  | none => ""
  | some i => cellAt row i

/-- Mutate the record stored under topic `t`: the model of
`topicMap.get(t)` followed by in-place mutation. -/
def updateItem (items : List RoadmapItem) (t : String)
    (f : RoadmapItem → RoadmapItem) : List RoadmapItem :=
  items.map (fun it => if it.topic = t then f it else it)

/-- `topicMap.has(t)`. -/
def hasTopic (items : List RoadmapItem) (t : String) : Bool :=
  items.any (fun it => it.topic = t)

/-- The status-priority merge duplicated verbatim in both aggregation paths:
`Completed > In Progress > Yet to Start`, a new value only overwrites when it
is "Completed", or "In Progress" over a non-"Completed" value. -/
def mergeStatus (old s : String) : String :=
  if s = "Completed" || (s = "In Progress" && old ≠ "Completed") then s else old

/-- The sub-topics cell update of one Excel data row (excelImport.js lines
137-162): split on line breaks when the cell contains one, else the whole
trimmed cell, each token appended if absent. -/
def excelSubPhase (cols : Cols) (t : String) (row : List String)
    (items : List RoadmapItem) : List RoadmapItem :=
  match cols.subIdx with
  | none => items
  | some j =>
    let c := cellAt row j
    if c ≠ "" && trimStr c ≠ "" then
      let toks :=
        if hasChar c '\n' || hasChar c '\r' then splitTrimFilter c
        else [trimStr c]
      updateItem items t
        (fun it => { it with subTopics := toks.foldl addIfAbsent it.subTopics })
    else items

/-- The projects cell update of one Excel data row (excelImport.js lines
164-170): the whole trimmed cell is a single token appended if absent. -/
def excelProjPhase (cols : Cols) (t : String) (row : List String)
    (items : List RoadmapItem) : List RoadmapItem :=
  match cols.projIdx with
  | none => items
  | some j =>
    let c := cellAt row j
    if c ≠ "" && trimStr c ≠ "" then
      updateItem items t
        (fun it => { it with projects := addIfAbsent it.projects (trimStr c) })
    else items

/-- The status cell update of one Excel data row (excelImport.js lines
172-180). -/
def excelStatusPhase (cols : Cols) (t : String) (row : List String)
    (items : List RoadmapItem) : List RoadmapItem :=
  match cols.statusIdx with
  | none => items
  | some j =>
    let c := cellAt row j
    if c ≠ "" && trimStr c ≠ "" then
      updateItem items t
        (fun it => { it with completionStatus := mergeStatus it.completionStatus (normalizeStatus c) })
    else items

/-- One data-row step of `processExcelFile` (excelImport.js, lines 113-181).
The state is the insertion-ordered topic map together with the carry-forward
`currentTopic` cursor. -/
def excelStep (cols : Cols) (st : List RoadmapItem × Option String)
    (row : List String) : List RoadmapItem × Option String :=
  let tcell := cellAt row cols.topicIdx
  let st :=
    if tcell ≠ "" && trimStr tcell ≠ "" then
      let t := trimStr tcell
      let initialStatus :=
        if optCell row cols.statusIdx ≠ "" then
          normalizeStatus (optCell row cols.statusIdx)
        else "Yet to Start"
      let items :=
        if hasTopic st.1 t then st.1
        else st.1 ++ [⟨t, [], [], initialStatus⟩]
      (items, some t)
    else st
  match st.2 with
  | none => st
  | some t =>
    (excelStatusPhase cols t row (excelProjPhase cols t row (excelSubPhase cols t row st.1)),
     some t)

/-- Topic-column resolution of the workbook import path:
`headers.findIndex(h => h.toLowerCase().includes('topic') && !h.toLowerCase().includes('sub'))`. -/
def importTopicIdx (headers : List String) : Option Nat :=
  headers.findIdx? (fun h => strHasSub (lc h) "topic" && !(strHasSub (lc h) "sub"))

/-- Sub-topics column resolution of the workbook import path. -/
def importSubIdx (headers : List String) : Option Nat :=
  headers.findIdx? (fun h => strHasSub (lc h) "sub-topic" || strHasSub (lc h) "subtopic")

/-- Projects column resolution of the workbook import path. -/
def importProjIdx (headers : List String) : Option Nat :=
  headers.findIdx? (fun h =>
    strHasSub (lc h) "project" || strHasSub (lc h) "task" || strHasSub (lc h) "app")

/-- Status column resolution of the workbook import path. -/
def importStatusIdx (headers : List String) : Option Nat :=
  headers.findIdx? (fun h => strHasSub (lc h) "status")

/-- `headers[i] || dflt` through an optional index. -/
def headerOr (headers : List String) (i : Option Nat) (dflt : String) : String :=
  match i with
  | none => dflt
  | some j => let h := headers.getD j ""; if h = "" then dflt else h

/-- Outcome of processing one sheet in the workbook import path. -/
inductive ImportResult where
  | skippedName
  | skippedNoData
  | skippedNoTopic
  | skippedEmpty
  | ok (headers : HeadersRec) (items : List RoadmapItem)
deriving DecidableEq, Repr

/-- `processExcelFile`, restricted to a single sheet (the loop body of
excelImport.js lines 54-224, without the database write). -/
def importSheet (sheetName : String) (jsonData : List (List String)) : ImportResult :=
  if lc sheetName = "readme" || lc sheetName = "instructions" then .skippedName
  else if jsonData.length ≤ 1 then .skippedNoData
  else
    let headers := (jsonData.headD []).map trimStr
    match importTopicIdx headers with
    | none => .skippedNoTopic
    | some topicIdx =>
      let cols : Cols :=
        ⟨topicIdx, importSubIdx headers, importProjIdx headers, importStatusIdx headers⟩
      let customHeaders : HeadersRec :=
        { topic := headerOr headers (some topicIdx) "Topic"
          subTopics := headerOr headers cols.subIdx "Sub-Topics"
          projects := headerOr headers cols.projIdx "Project / Task"
          status := headerOr headers cols.statusIdx "Status" }
      let items := ((jsonData.drop 1).foldl (excelStep cols) ([], none)).1
      if items.length = 0 then .skippedEmpty
      else .ok customHeaders items

/-- `findColumnIndex` of spreadsheetConverter.js (lines 173-181): first header
whose lower-cased text contains any synonym as a substring. -/
def findColumnIndex (headers : List String) (possibleNames : List String) : Option Nat :=
  headers.findIdx? (fun h => possibleNames.any (fun name => strHasSub (lc h) (lc name)))

/-- Outcome of converting one sheet to CSV. -/
inductive ConvertResult where
  | skippedName
  | skippedInsufficient
  | skippedNoData
  | skippedNoTopic
  | skippedNoRows
  | ok (csvData : List (List String))
deriving DecidableEq, Repr

/-- The status value the converter writes for one kept sheet row:
`statusColIdx !== -1 ? normalizeStatus(row[statusColIdx] || '') : 'Yet to Start'`. -/
def convStatusCell (statusIdx : Option Nat) (row : List String) : String :=
  match statusIdx with
  | some j => normalizeStatus (cellAt row j)
  | none => "Yet to Start"

/-- The normalized four-column data row written by the converter for one kept
sheet row (spreadsheetConverter.js lines 116-121). -/
def convRow (ti : Nat) (subIdx projIdx statusIdx : Option Nat)
    (row : List String) : List String :=
  [cellAt row ti,
   optCell row subIdx,
   optCell row projIdx,
   convStatusCell statusIdx row]

/-- The display label the converter keeps for an optional resolved column:
the literal matched header, or the default when the column is absent. -/
def convHeaderLabel (headers : List String) (idx : Option Nat) (dflt : String) : String :=
  match idx with
  | some j => headers.getD j ""
  | none => dflt

/-- `convertSheetsToCSV`, restricted to a single sheet (the loop body of
spreadsheetConverter.js lines 39-156); the returned grid is the `csvData`
array whose serialization is written to the per-sheet CSV file.  For a sheet
with `n` rows the worksheet range's last row index `range.e.r` is `n - 1`. -/
def convertSheet (sheetName : String) (sheetRows : List (List String)) : ConvertResult :=
  if lc sheetName = "readme" || lc sheetName = "instructions" then .skippedName
  else if sheetRows.length - 1 < 2 then .skippedInsufficient
  else if sheetRows.length < 2 then .skippedNoData
  else
    let headers := (sheetRows.headD []).map trimStr
    let topicsColIdx := findColumnIndex headers ["topics", "topic", "technology"]
    let subTopicsColIdx :=
      findColumnIndex headers ["sub-topics", "subtopics", "sub-topic", "subtopic"]
    let projectsColIdx :=
      findColumnIndex headers
        ["project/app to build", "projects", "projects/apps built", "application"]
    let statusColIdx := findColumnIndex headers ["status of completion", "status", "completion"]
    match topicsColIdx with
    | none => .skippedNoTopic
    | some ti =>
      let customHeaders : HeadersRec :=
        { topic := headerOr headers (some ti) "Topic"
          subTopics := convHeaderLabel headers subTopicsColIdx "Sub-Topics"
          projects := convHeaderLabel headers projectsColIdx "Projects"
          status := convHeaderLabel headers statusColIdx "Status" }
      let headerRow :=
        [customHeaders.topic, customHeaders.subTopics, customHeaders.projects,
         customHeaders.status]
      let dataRows :=
        ((sheetRows.drop 1).filter (fun row => cellAt row ti ≠ "")).map
          (convRow ti subTopicsColIdx projectsColIdx statusColIdx)
      let csvData := headerRow :: dataRows
      if csvData.length ≤ 1 then .skippedNoRows
      else .ok csvData

/-- The `headerMapping` record computed by `processCSVFile` (bulkUpload.js):
for each logical field, the first raw header matching one of its synonyms. -/
structure HeaderMapping where
  topic : Option String
  subtopic : Option String
  project : Option String
  status : Option String
deriving DecidableEq, Repr

/-- `headers.find(h => alternatives.some(alt => h.toLowerCase().includes(alt.toLowerCase())))`. -/
def findMappedHeader (headers : List String) (alternatives : List String) : Option String :=
  headers.find? (fun h => alternatives.any (fun alt => strHasSub (lc h) (lc alt)))

/-- The column mappings of `processCSVFile` (bulkUpload.js lines 53-85). -/
def resolveCSVMapping (headers : List String) : HeaderMapping :=
  { topic := findMappedHeader headers ["topics", "topic", "technology"]
    subtopic := findMappedHeader headers ["sub-topics", "subtopics", "sub-topic", "subtopic"]
    project := findMappedHeader headers ["project/app to build", "projects", "projects/apps built"]
    status := findMappedHeader headers ["status of completion", "status", "completion status"] }

/-- Field access `row[key]` on a parsed CSV row object.  Papa Parse builds the
row object by assigning `header → cell` pairs left to right, so with duplicate
header names the rightmost column wins; absent fields read as `''` (falsy). -/
def rowGet (headers row : List String) (key : String) : String :=
  match (headers.zip row).reverse.find? (fun p => p.1 = key) with
  | some p => p.2
  | none => ""

/-- The raw (untrimmed) topic cell used by `processCSVFile` as aggregation
key; `""` when the row has no usable topic. -/
def csvKeyOfRow (headers : List String) (hm : HeaderMapping) (row : List String) : String :=
  match hm.topic with
  | some k => rowGet headers row k
  | none => ""

/-- The sub-topic tokens parsed from one CSV row (bulkUpload.js lines
100-108): split on line breaks, trimmed, empties dropped. -/
def csvSubTokensRow (headers : List String) (hm : HeaderMapping) (row : List String) :
    List String :=
  match hm.subtopic with
  | none => []
  | some k =>
    let c := rowGet headers row k
    if c ≠ "" then splitTrimFilter c else []

/-- The project tokens parsed from one CSV row (bulkUpload.js lines 110-122):
split like sub-topics when the cell contains a line feed, else the single
trimmed cell. -/
def csvProjTokensRow (headers : List String) (hm : HeaderMapping) (row : List String) :
    List String :=
  match hm.project with
  | none => []
  | some k =>
    let c := rowGet headers row k
    if c ≠ "" then
      if hasChar c '\n' then splitTrimFilter c else [trimStr c]
    else []

/-- The normalized status of one CSV row (bulkUpload.js lines 124-127). -/
def csvRowStatus (headers : List String) (hm : HeaderMapping) (row : List String) : String :=
  match hm.status with
  | none => "Yet to Start"
  | some k =>
    let c := rowGet headers row k
    if c ≠ "" then normalizeStatus c else "Yet to Start"

/-- One data-row step of `processCSVFile` (bulkUpload.js lines 96-161). -/
def csvStep (headers : List String) (hm : HeaderMapping)
    (items : List RoadmapItem) (row : List String) : List RoadmapItem :=
  let topic := csvKeyOfRow headers hm row
  if topic = "" then items
  else
    let subTopics := csvSubTokensRow headers hm row
    let projects := csvProjTokensRow headers hm row
    let status := csvRowStatus headers hm row
    if hasTopic items topic then
      updateItem items topic
        (fun it =>
          { topic := it.topic
            subTopics := subTopics.foldl addIfAbsent it.subTopics
            projects := projects.foldl addIfAbsent it.projects
            completionStatus := mergeStatus it.completionStatus status })
    else items ++ [⟨topic, subTopics, projects, status⟩]

/-- A tech-stack document: the fields written by the ingestion sinks. -/
structure TechStack where
  name : String
  description : String
  headers : HeadersRec
  roadmapItems : List RoadmapItem
deriving DecidableEq, Repr

/-- The default display headers of `processCSVFile`. -/
def mappedCustomHeaders (hm : HeaderMapping) : HeadersRec :=
  { topic := hm.topic.getD "Topic"
    subTopics := hm.subtopic.getD "Sub-Topics"
    projects := hm.project.getD "Projects"
    status := hm.status.getD "Status" }

/-- Modelled from the spec: the CSV transport (the converter's quoted-field
serialization followed by Papa Parse with `header: true` and
`transformHeader: trim`) is, per the Tabular Reader contract of the spec, an
external collaborator that delivers the written grid back unchanged with
embedded newlines preserved; only the header trimming is applied here. -/
def papaHeaders (headerRow : List String) : List String := headerRow.map trimStr

/-- `processCSVFile` (bulkUpload.js lines 34-198) on an already-parsed grid,
without the database write (returned instead as the tech-stack data). -/
def processCSVGrid (grid : List (List String)) (techStackName description : String) :
    Except String TechStack :=
  let dataRows := grid.drop 1
  let headers := if dataRows.isEmpty then [] else papaHeaders (grid.headD [])
  let hm := resolveCSVMapping headers
  match hm.topic with
  | none => .error "CSV must have a column for Topics"
  | some _ =>
    let roadmapItems := dataRows.foldl (csvStep headers hm) []
    .ok { name := techStackName, description := description,
          headers := mappedCustomHeaders hm, roadmapItems := roadmapItems }

/-- The roadmap items produced by the workbook import path for one sheet. -/
def importItems (sheetName : String) (rows : List (List String)) :
    Option (List RoadmapItem) :=
  match importSheet sheetName rows with
  | .ok _ items => some items
  | _ => none

/-- The roadmap items produced by converting a sheet to CSV and bulk-uploading
the resulting file (whose name is the sanitized sheet name). -/
def convertThenUpload (sheetName : String) (sheetRows : List (List String)) :
    Option (List RoadmapItem) :=
  match convertSheet sheetName sheetRows with
  | .ok csvData =>
    match processCSVGrid csvData sheetName "" with
    | .ok ts => some ts.roadmapItems
    | .error _ => none
  | _ => none

/-- The sink shared by both ingestion scripts: `TechStack.findOne({name})`
followed by a wholesale overwrite of `description`, `headers` and
`roadmapItems` on the found document, or creation of a new document. -/
def upsertTechStack : List TechStack → String → String → HeadersRec →
    List RoadmapItem → List TechStack
  | [], name, desc, hdrs, items => [⟨name, desc, hdrs, items⟩]
  | ts :: rest, name, desc, hdrs, items =>
    if ts.name = name then
      { ts with description := desc, headers := hdrs, roadmapItems := items } :: rest
    else ts :: upsertTechStack rest name desc hdrs items

/-- A stored roadmap item with its Mongo subdocument `_id`. -/
structure StoredRoadmapItem where
  id : String
  item : RoadmapItem
deriving DecidableEq, Repr

/-- A stored tech-stack document, as seen by the roadmap-item controllers. -/
structure StoredTechStack where
  id : String
  name : String
  roadmapItems : List StoredRoadmapItem
deriving DecidableEq, Repr

/-- HTTP outcome of a controller call. -/
structure ApiResponse where
  status : Nat
  success : Bool
deriving DecidableEq, Repr

/-- `deleteRoadmapItem` (techStackController.js lines 575-603):
`findById`, then `roadmapItems = roadmapItems.filter(item => item._id.toString() !== itemId)`,
then `save`. -/
def deleteRoadmapItem (store : List StoredTechStack) (tsId itemId : String) :
    ApiResponse × List StoredTechStack :=
  match store.find? (fun d => d.id = tsId) with
  | none => (⟨404, false⟩, store)
  | some d =>
    let d' := { d with roadmapItems := d.roadmapItems.filter (fun it => it.id ≠ itemId) }
    (⟨200, true⟩, store.map (fun e => if e.id = d.id then d' else e))

/-! ### Observation functions on the embedded operations -/

/-- The trimmed topic key contributed by one Excel data row, if any. -/
def excelKeyOfRow (cols : Cols) (row : List String) : Option String :=
  let c := cellAt row cols.topicIdx
  if c ≠ "" && trimStr c ≠ "" then some (trimStr c) else none

/-- The trimmed topic keys contributed by the data rows of an Excel sheet, in
row order. -/
def excelTopicKeys (cols : Cols) (rows : List (List String)) : List String :=
  rows.filterMap (excelKeyOfRow cols)

/-- The raw topic keys contributed by the data rows of a CSV file, in row
order (no trimming). -/
def csvTopicKeys (headers : List String) (hm : HeaderMapping)
    (rows : List (List String)) : List String :=
  rows.filterMap (fun row =>
    let t := csvKeyOfRow headers hm row
    if t = "" then none else some t)

/-- The project tokens contributed by one Excel data row: the whole trimmed
cell when present, nothing otherwise. -/
def excelProjTokensRow (cols : Cols) (row : List String) : List String :=
  match cols.projIdx with
  | none => []
  | some j =>
    let c := cellAt row j
    if c ≠ "" && trimStr c ≠ "" then [trimStr c] else []

/-- The sub-topic tokens contributed by one Excel data row: the split cell
when it contains a line break, the whole trimmed cell otherwise, nothing when
the cell is blank. -/
def excelSubCellTokens (subIdx : Option Nat) (row : List String) : List String :=
  match subIdx with
  | none => []
  | some j =>
    let c := cellAt row j
    if c ≠ "" && trimStr c ≠ "" then
      if hasChar c '\n' || hasChar c '\r' then splitTrimFilter c
      else [trimStr c]
    else []

/-- The status signal of one Excel data row: the normalized status cell when
present and non-blank, else "Yet to Start" (which is a neutral element of the
status merge). -/
def excelStatusSignal (statusIdx : Option Nat) (row : List String) : String :=
  match statusIdx with
  | none => "Yet to Start"
  | some j =>
    let c := cellAt row j
    if c ≠ "" && trimStr c ≠ "" then normalizeStatus c else "Yet to Start"

/-- The header mapping that reads the four converter-emitted CSV columns
positionally. -/
def positionalMapping (ls : List String) : HeaderMapping :=
  ⟨some (ls.getD 0 ""), some (ls.getD 1 ""), some (ls.getD 2 ""), some (ls.getD 3 "")⟩

/-- The four-label header row the converter writes for a sheet with resolved
topic column `ti`. -/
def convHeaderRow (headers : List String) (ti : Nat) : List String :=
  [headerOr headers (some ti) "Topic",
   convHeaderLabel headers
     (findColumnIndex headers ["sub-topics", "subtopics", "sub-topic", "subtopic"])
     "Sub-Topics",
   convHeaderLabel headers
     (findColumnIndex headers
       ["project/app to build", "projects", "projects/apps built", "application"])
     "Projects",
   convHeaderLabel headers
     (findColumnIndex headers ["status of completion", "status", "completion"])
     "Status"]

/-- The four trimmed header labels of the CSV emitted for a sheet, as the
upload stage sees them; `[]` when the sheet is not converted. -/
def convertLabels (sheetName : String) (sheetRows : List (List String)) : List String :=
  match convertSheet sheetName sheetRows with
  | .ok csvData => papaHeaders (csvData.headD [])
  | _ => []

/-- Priority rank of a completion status: `Completed` (2) over `In Progress`
(1) over everything else (0). -/
def statusPriority (s : String) : Nat :=
  if s = "Completed" then 2 else if s = "In Progress" then 1 else 0

/-- Priority of an optional status; a missing record ranks lowest. -/
def optPriority : Option String → Nat
  | none => 0
  | some s => statusPriority s

/-- The aggregated completion status recorded for topic `t`. -/
def statusOf (items : List RoadmapItem) (t : String) : Option String :=
  (items.find? (fun it => it.topic = t)).map (fun it => it.completionStatus)

/-- Reference replay of the Excel aggregation, per the claim's words: collect
for every topic the plain concatenation of all project tokens attributed to
it (carry-forward rules included), with no deduplication. -/
def excelProjReplayStep (cols : Cols) (st : List (String × List String) × Option String)
    (row : List String) : List (String × List String) × Option String :=
  let st :=
    match excelKeyOfRow cols row with
    | some t => (if st.1.any (fun p => p.1 = t) then st.1 else st.1 ++ [(t, [])], some t)
    | none => st
  match st.2 with
  | none => st
  | some t =>
    (st.1.map (fun p => if p.1 = t then (p.1, p.2 ++ excelProjTokensRow cols row) else p),
     some t)

/-- Per-topic concatenated project token streams of an Excel sheet. -/
def excelProjReplay (cols : Cols) (rows : List (List String)) :
    List (String × List String) :=
  (rows.foldl (excelProjReplayStep cols) ([], none)).1

/-- Reference replay of the CSV aggregation, per the claim's words: collect
for every raw topic key the concatenation of all its rows' project tokens. -/
def csvProjReplayStep (headers : List String) (hm : HeaderMapping)
    (acc : List (String × List String)) (row : List String) :
    List (String × List String) :=
  let t := csvKeyOfRow headers hm row
  if t = "" then acc
  else if acc.any (fun p => p.1 = t) then
    acc.map (fun p => if p.1 = t then (p.1, p.2 ++ csvProjTokensRow headers hm row) else p)
  else acc ++ [(t, csvProjTokensRow headers hm row)]

/-- Per-topic concatenated project token streams of a CSV file. -/
def csvProjReplay (headers : List String) (hm : HeaderMapping)
    (rows : List (List String)) : List (String × List String) :=
  rows.foldl (csvProjReplayStep headers hm) []

/-- Correspondence between an aggregated Excel item and its replayed token
stream: same topic, and the stored projects are exactly the stream's
first-occurrence dedup. -/
def projRelE (it : RoadmapItem) (p : String × List String) : Prop :=
  it.topic = p.1 ∧ it.projects = firstDedup p.2

/-- Correspondence between an aggregated CSV item and its replayed token
stream: same topic, and the stored projects dedup to the stream's dedup (the
CSV path keeps intra-cell duplicates of a topic's first row). -/
def projRelC (it : RoadmapItem) (p : String × List String) : Prop :=
  it.topic = p.1 ∧ firstDedup it.projects = firstDedup p.2

/-- Correspondence between an item aggregated by the workbook import path and
the item aggregated for the same topic by the convert-then-upload path: same
topic and status, and the import-side name lists are the first-occurrence
dedups of the upload-side lists. -/
def relB (x y : RoadmapItem) : Prop :=
  x.topic = y.topic ∧ x.subTopics = firstDedup y.subTopics ∧
  x.projects = firstDedup y.projects ∧ x.completionStatus = y.completionStatus

/-! ### Reference definitions written from the spec's words -/

/-- Modelled from the spec: the Status Normalizer reference function of the
claim — lower-case the input; `complete`/`done`/`finish` win first, then
`progress`/`ongoing`/`partial`; otherwise (including the empty input)
"Yet to Start". -/
def normalizeStatusSpec (status : String) : String :=
  let s := lc status
  if strHasSub s "complete" || strHasSub s "done" || strHasSub s "finish" then
    "Completed"
  else if strHasSub s "progress" || strHasSub s "ongoing" || strHasSub s "partial" then
    "In Progress"
  else "Yet to Start"

/-- Modelled from the spec: the topic-column resolver the claim describes for
the workbook import path — first header containing `topic`, `topics` or
`technology`, excluding headers that also contain `sub`. -/
def specTopicResolver (headers : List String) : Option Nat :=
  headers.findIdx? (fun h =>
    (strHasSub (lc h) "topic" || strHasSub (lc h) "topics" ||
     strHasSub (lc h) "technology") && !(strHasSub (lc h) "sub"))

/-- The topic-column resolver actually used by the workbook import path, as
amended: the only synonyms are `topic` and `topics` (the latter matching via
the former as a substring); `technology` is not a synonym in this path. -/
def amendedTopicResolver (headers : List String) : Option Nat :=
  headers.findIdx? (fun h =>
    (strHasSub (lc h) "topic" || strHasSub (lc h) "topics") &&
    !(strHasSub (lc h) "sub"))

/-! ### Helper lemmas: first-occurrence deduplication -/

theorem contains_iff_mem {xs : List String} {x : String} :
    xs.contains x = true ↔ x ∈ xs := List.elem_iff

theorem addIfAbsent_of_mem {xs : List String} {x : String} (h : x ∈ xs) :
    addIfAbsent xs x = xs := by
  simp [addIfAbsent, h]

theorem addIfAbsent_of_not_mem {xs : List String} {x : String} (h : x ∉ xs) :
    addIfAbsent xs x = xs ++ [x] := by
  simp [addIfAbsent, h]

theorem mem_addIfAbsent {xs : List String} {x y : String} :
    y ∈ addIfAbsent xs x ↔ y ∈ xs ∨ y = x := by
  by_cases h : x ∈ xs
  · rw [addIfAbsent_of_mem h]
    exact ⟨Or.inl, fun hy => hy.elim id (fun e => e ▸ h)⟩
  · rw [addIfAbsent_of_not_mem h]
    simp

theorem mem_foldl_addIfAbsent {y : String} :
    ∀ (l acc : List String), y ∈ l.foldl addIfAbsent acc ↔ y ∈ acc ∨ y ∈ l
  | [], acc => by simp
  | x :: l, acc => by
    rw [List.foldl_cons, mem_foldl_addIfAbsent l (addIfAbsent acc x)]
    rw [mem_addIfAbsent]
    simp only [List.mem_cons]
    tauto

theorem foldl_addIfAbsent_eq_append :
    ∀ (l acc : List String), (acc ++ l).Nodup → l.foldl addIfAbsent acc = acc ++ l
  | [], acc, _ => by simp
  | x :: l, acc, h => by
    have hx : x ∉ acc := by
      rcases List.nodup_append.mp h with ⟨-, -, hd⟩
      exact fun hmem => hd hmem (List.mem_cons_self x l)
    rw [List.foldl_cons, addIfAbsent_of_not_mem hx,
      foldl_addIfAbsent_eq_append l (acc ++ [x]) (by simpa using h),
      List.append_assoc]
    simp

theorem nodup_foldl_addIfAbsent :
    ∀ (l acc : List String), acc.Nodup → (l.foldl addIfAbsent acc).Nodup
  | [], _, h => h
  | x :: l, acc, h => by
    rw [List.foldl_cons]
    refine nodup_foldl_addIfAbsent l _ ?_
    by_cases hx : x ∈ acc
    · rwa [addIfAbsent_of_mem hx]
    · rw [addIfAbsent_of_not_mem hx]
      simpa [List.nodup_append] using ⟨h, hx⟩

theorem firstDedup_nodup (l : List String) : (firstDedup l).Nodup :=
  nodup_foldl_addIfAbsent l [] List.nodup_nil

theorem mem_firstDedup {y : String} {l : List String} :
    y ∈ firstDedup l ↔ y ∈ l := by
  unfold firstDedup
  rw [mem_foldl_addIfAbsent]
  simp

theorem firstDedup_eq_self {l : List String} (h : l.Nodup) : firstDedup l = l := by
  unfold firstDedup
  simpa using foldl_addIfAbsent_eq_append l [] (by simpa using h)

theorem firstDedup_idem (l : List String) :
    firstDedup (firstDedup l) = firstDedup l :=
  firstDedup_eq_self (firstDedup_nodup l)

theorem firstDedup_append (a b : List String) :
    firstDedup (a ++ b) = b.foldl addIfAbsent (firstDedup a) :=
  List.foldl_append addIfAbsent [] a b

theorem firstDedup_foldl_addIfAbsent :
    ∀ (l p : List String), firstDedup (l.foldl addIfAbsent p) = firstDedup (p ++ l)
  | [], p => by simp
  | x :: l, p => by
    by_cases hx : x ∈ p
    · rw [List.foldl_cons, addIfAbsent_of_mem hx, firstDedup_foldl_addIfAbsent l p,
        firstDedup_append p (x :: l), List.foldl_cons,
        addIfAbsent_of_mem (mem_firstDedup.mpr hx), ← firstDedup_append p l]
    · rw [List.foldl_cons, addIfAbsent_of_not_mem hx,
        firstDedup_foldl_addIfAbsent l (p ++ [x]), List.append_assoc]
      simp

theorem firstDedup_singleton_step {p : List String} {x : String} :
    addIfAbsent (firstDedup p) x = firstDedup (p ++ [x]) := by
  rw [firstDedup_append p [x]]
  simp

/-! ### Helper lemmas: topic maps -/

theorem hasTopic_iff {items : List RoadmapItem} {t : String} :
    hasTopic items t = true ↔ t ∈ items.map (fun it => it.topic) := by
  simp only [hasTopic, List.any_eq_true, List.mem_map, decide_eq_true_eq]

theorem updateItem_map_topic {items : List RoadmapItem} {t : String}
    {f : RoadmapItem → RoadmapItem} (hf : ∀ it, (f it).topic = it.topic) :
    (updateItem items t f).map (fun it => it.topic) = items.map (fun it => it.topic) := by
  unfold updateItem
  rw [List.map_map]
  refine List.map_congr_left fun it _ => ?_
  by_cases h : it.topic = t <;> simp [h, hf]

theorem excelSubPhase_map_topic (cols : Cols) (t : String) (row : List String)
    (items : List RoadmapItem) :
    (excelSubPhase cols t row items).map (fun it => it.topic) =
      items.map (fun it => it.topic) := by
  unfold excelSubPhase
  cases cols.subIdx with
  | none => rfl
  | some j =>
    dsimp only
    by_cases h : (cellAt row j ≠ "" && trimStr (cellAt row j) ≠ "") = true
    · rw [if_pos h]
      exact updateItem_map_topic fun it => rfl
    · rw [if_neg h]

theorem excelProjPhase_map_topic (cols : Cols) (t : String) (row : List String)
    (items : List RoadmapItem) :
    (excelProjPhase cols t row items).map (fun it => it.topic) =
      items.map (fun it => it.topic) := by
  unfold excelProjPhase
  cases cols.projIdx with
  | none => rfl
  | some j =>
    dsimp only
    by_cases h : (cellAt row j ≠ "" && trimStr (cellAt row j) ≠ "") = true
    · rw [if_pos h]
      exact updateItem_map_topic fun it => rfl
    · rw [if_neg h]

theorem excelStatusPhase_map_topic (cols : Cols) (t : String) (row : List String)
    (items : List RoadmapItem) :
    (excelStatusPhase cols t row items).map (fun it => it.topic) =
      items.map (fun it => it.topic) := by
  unfold excelStatusPhase
  cases cols.statusIdx with
  | none => rfl
  | some j =>
    dsimp only
    by_cases h : (cellAt row j ≠ "" && trimStr (cellAt row j) ≠ "") = true
    · rw [if_pos h]
      exact updateItem_map_topic fun it => rfl
    · rw [if_neg h]

theorem excelStep_map_topic (cols : Cols) (st : List RoadmapItem × Option String)
    (row : List String) :
    ((excelStep cols st row).1).map (fun it => it.topic) =
      (match excelKeyOfRow cols row with
       | some t => addIfAbsent (st.1.map (fun it => it.topic)) t
       | none => st.1.map (fun it => it.topic)) := by
  unfold excelStep excelKeyOfRow
  by_cases hk : (cellAt row cols.topicIdx ≠ "" && trimStr (cellAt row cols.topicIdx) ≠ "") = true
  · simp only [if_pos hk]
    rw [excelStatusPhase_map_topic, excelProjPhase_map_topic, excelSubPhase_map_topic]
    by_cases hh : hasTopic st.1 (trimStr (cellAt row cols.topicIdx)) = true
    · rw [if_pos hh, addIfAbsent_of_mem (hasTopic_iff.mp hh)]
    · rw [if_neg hh, addIfAbsent_of_not_mem (fun hmem => hh (hasTopic_iff.mpr hmem))]
      simp
  · simp only [if_neg hk]
    cases hcur : st.2 with
    | none => rfl
    | some t =>
      show (excelStatusPhase cols t row (excelProjPhase cols t row
        (excelSubPhase cols t row st.1))).map (fun it => it.topic) =
          st.1.map (fun it => it.topic)
      rw [excelStatusPhase_map_topic, excelProjPhase_map_topic, excelSubPhase_map_topic]

theorem excelFold_map_topic (cols : Cols) :
    ∀ (rows : List (List String)) (st : List RoadmapItem × Option String),
      ((rows.foldl (excelStep cols) st).1).map (fun it => it.topic) =
        (excelTopicKeys cols rows).foldl addIfAbsent (st.1.map (fun it => it.topic))
  | [], st => by simp [excelTopicKeys]
  | row :: rows, st => by
    rw [List.foldl_cons, excelFold_map_topic cols rows (excelStep cols st row)]
    have hstep := excelStep_map_topic cols st row
    unfold excelTopicKeys at *
    cases hk : excelKeyOfRow cols row with
    | none =>
      rw [hk] at hstep
      simp only [List.filterMap_cons, hk, hstep]
    | some t =>
      rw [hk] at hstep
      simp only [List.filterMap_cons, hk, hstep, List.foldl_cons]

theorem csvStep_map_topic (headers : List String) (hm : HeaderMapping)
    (items : List RoadmapItem) (row : List String) :
    (csvStep headers hm items row).map (fun it => it.topic) =
      (if csvKeyOfRow headers hm row = "" then items.map (fun it => it.topic)
       else addIfAbsent (items.map (fun it => it.topic)) (csvKeyOfRow headers hm row)) := by
  unfold csvStep
  by_cases hk : csvKeyOfRow headers hm row = ""
  · simp only [hk, ite_true]
  · simp only [hk, ite_false]
    by_cases hh : hasTopic items (csvKeyOfRow headers hm row) = true
    · rw [if_pos hh, updateItem_map_topic, addIfAbsent_of_mem (hasTopic_iff.mp hh)]
      exact fun it => rfl
    · rw [if_neg hh, addIfAbsent_of_not_mem (fun hmem => hh (hasTopic_iff.mpr hmem))]
      simp

theorem csvFold_map_topic (headers : List String) (hm : HeaderMapping) :
    ∀ (rows : List (List String)) (items : List RoadmapItem),
      ((rows.foldl (csvStep headers hm) items)).map (fun it => it.topic) =
        (csvTopicKeys headers hm rows).foldl addIfAbsent (items.map (fun it => it.topic))
  | [], items => by simp [csvTopicKeys]
  | row :: rows, items => by
    rw [List.foldl_cons, csvFold_map_topic headers hm rows (csvStep headers hm items row)]
    have hstep := csvStep_map_topic headers hm items row
    unfold csvTopicKeys at *
    by_cases hk : csvKeyOfRow headers hm row = ""
    · simp only [hk, if_true, ite_true] at hstep ⊢
      simp only [List.filterMap_cons, hk, ite_true, hstep]
    · simp only [hk, if_false, ite_false] at hstep ⊢
      simp only [List.filterMap_cons, hk, ite_false, hstep, List.foldl_cons]

theorem startsWithChars_of_append {q : List Char} :
    ∀ (pat l : List Char), startsWithChars (pat ++ q) l = true →
      startsWithChars pat l = true
  | [], _, _ => rfl
  | p :: ps, [], h => by
    simp [startsWithChars] at h
  | p :: ps, c :: cs, h => by
    simp only [List.cons_append, startsWithChars, Bool.and_eq_true] at h ⊢
    exact ⟨h.1, startsWithChars_of_append ps cs h.2⟩

theorem hasSubChars_of_append {pat q : List Char} :
    ∀ (l : List Char), hasSubChars (pat ++ q) l = true → hasSubChars pat l = true
  | [], h => by
    cases pat with
    | nil => rfl
    | cons p ps => simp [hasSubChars, startsWithChars] at h
  | c :: cs, h => by
    simp only [hasSubChars, Bool.or_eq_true] at h ⊢
    rcases h with h | h
    · exact Or.inl (startsWithChars_of_append pat (c :: cs) h)
    · exact Or.inr (hasSubChars_of_append cs h)

theorem strHasSub_topic_of_topics {s : String} (h : strHasSub s "topics" = true) :
    strHasSub s "topic" = true := by
  have e : ("topics".data : List Char) = "topic".data ++ ['s'] := by decide
  unfold strHasSub at h ⊢
  rw [e] at h
  exact hasSubChars_of_append s.data h

theorem findIdx?_congr {α : Type} {p q : α → Bool} (h : ∀ a, p a = q a) :
    ∀ (l : List α) (i : Nat), List.findIdx? p l i = List.findIdx? q l i
  | [], _ => by simp
  | x :: l, i => by
    rw [List.findIdx?_cons, List.findIdx?_cons, h x, findIdx?_congr h l (i + 1)]

theorem findIdx?_start_le {α : Type} {p : α → Bool} :
    ∀ {l : List α} {i j : Nat}, List.findIdx? p l i = some j → i ≤ j
  | [], i, j, h => by simp at h
  | x :: l, i, j, h => by
    rw [List.findIdx?_cons] at h
    by_cases hp : p x = true
    · rw [if_pos hp] at h
      simp only [Option.some.injEq] at h
      omega
    · rw [if_neg hp] at h
      have := findIdx?_start_le h
      omega

theorem findIdx?_some_pred {α : Type} {p : α → Bool} :
    ∀ {l : List α} {i j : Nat}, List.findIdx? p l i = some j →
      ∃ a, l.get? (j - i) = some a ∧ p a = true
  | [], i, j, h => by simp at h
  | x :: l, i, j, h => by
    rw [List.findIdx?_cons] at h
    by_cases hp : p x = true
    · rw [if_pos hp] at h
      simp only [Option.some.injEq] at h
      subst h
      exact ⟨x, by simp, hp⟩
    · rw [if_neg hp] at h
      obtain ⟨a, ha, hpa⟩ := findIdx?_some_pred h
      have hij : i + 1 ≤ j := findIdx?_start_le h
      refine ⟨a, ?_, hpa⟩
      have e : j - i = (j - (i + 1)) + 1 := by omega
      rw [e]
      simpa using ha

theorem excelTopics_eq_firstDedup (cols : Cols) (rows : List (List String)) :
    ((rows.foldl (excelStep cols) ([], none)).1).map (fun it => it.topic) =
      firstDedup (excelTopicKeys cols rows) := by
  rw [excelFold_map_topic cols rows ([], none)]
  rfl

theorem csvTopics_eq_firstDedup (headers : List String) (hm : HeaderMapping)
    (rows : List (List String)) :
    ((rows.foldl (csvStep headers hm) []).map (fun it => it.topic)) =
      firstDedup (csvTopicKeys headers hm rows) := by
  rw [csvFold_map_topic headers hm rows []]
  rfl

/-! ### Helper lemmas: whitespace, splitting, lower-casing -/

theorem splitNl_ne_nil : ∀ (l : List Char), splitNl l ≠ []
  | [] => by simp [splitNl]
  | c :: cs => by
    unfold splitNl
    by_cases hc : c = '\n'
    · simp [hc]
    · simp only [hc, ite_false]
      cases splitNl cs <;> simp

theorem splitNl_no_nl : ∀ (l : List Char), l.contains '\n' = false → splitNl l = [l]
  | [], _ => rfl
  | c :: cs, h => by
    have hc : ¬ c = '\n' := by
      intro e
      subst e
      simp [List.contains_cons] at h
    have hcs : cs.contains '\n' = false := by
      simp only [List.contains_cons, Bool.or_eq_false_iff] at h
      exact h.2
    unfold splitNl
    rw [if_neg hc, splitNl_no_nl cs hcs]

theorem splitNl_sub : ∀ (l piece : List Char), piece ∈ splitNl l → ∀ ch ∈ piece, ch ∈ l
  | [], piece, hp, ch, hch => by
    simp only [splitNl, List.mem_singleton] at hp
    subst hp
    simp at hch
  | c :: cs, piece, hp, ch, hch => by
    unfold splitNl at hp
    by_cases hc : c = '\n'
    · simp only [hc, ite_true, List.mem_cons] at hp
      rcases hp with rfl | hp
      · simp at hch
      · exact List.mem_cons_of_mem c (splitNl_sub cs piece hp ch hch)
    · simp only [hc, ite_false] at hp
      cases hsp : splitNl cs with
      | nil => exact absurd hsp (splitNl_ne_nil cs)
      | cons l₀ ls =>
        rw [hsp] at hp
        rcases List.mem_cons.mp hp with rfl | hp
        · rcases List.mem_cons.mp hch with rfl | hch
          · exact List.mem_cons_self ch cs
          · exact List.mem_cons_of_mem c
              (splitNl_sub cs l₀ (hsp ▸ List.mem_cons_self l₀ ls) ch hch)
        · exact List.mem_cons_of_mem c
            (splitNl_sub cs piece (hsp ▸ List.mem_cons_of_mem l₀ hp) ch hch)

theorem trimChars_eq_nil_iff {l : List Char} :
    trimChars l = [] ↔ ∀ ch ∈ l, isWsChar ch = true := by
  constructor
  · intro h ch hch
    unfold trimChars at h
    rw [List.reverse_eq_nil_iff, List.dropWhile_eq_nil_iff] at h
    rcases List.mem_append.mp
      ((List.takeWhile_append_dropWhile (p := isWsChar) (l := l)) ▸ hch) with hm | hm
    · exact List.mem_takeWhile_imp hm
    · exact h ch (List.mem_reverse.mpr hm)
  · intro h
    unfold trimChars
    rw [List.dropWhile_eq_nil_iff.mpr h]
    rfl

theorem trimStr_data {c : String} (h : trimStr c = "") : trimChars c.data = [] := by
  simpa [trimStr] using congrArg String.data h

theorem splitTrimFilter_of_ws {c : String} (h : trimStr c = "") :
    splitTrimFilter c = [] := by
  have hall : ∀ ch ∈ c.data, isWsChar ch = true := trimChars_eq_nil_iff.mp (trimStr_data h)
  unfold splitTrimFilter splitLinesJS
  rw [List.map_map, List.filter_eq_nil_iff]
  intro a ha
  obtain ⟨piece, hpiece, rfl⟩ := List.mem_map.mp ha
  have : trimChars piece = [] := trimChars_eq_nil_iff.mpr
    (fun ch hch => hall ch (splitNl_sub c.data piece hpiece ch hch))
  simp [Function.comp, trimStr, this]

theorem splitTrimFilter_no_nl {c : String} (hnl : hasChar c '\n' = false) :
    splitTrimFilter c = if trimStr c = "" then [] else [trimStr c] := by
  by_cases ht : trimStr c = ""
  · rw [if_pos ht]
    exact splitTrimFilter_of_ws ht
  · rw [if_neg ht]
    unfold splitTrimFilter splitLinesJS
    rw [splitNl_no_nl c.data hnl]
    simp only [List.map_cons, List.map_nil]
    have : (String.mk c.data) = c := rfl
    rw [this]
    simp [ht]

theorem subCellTokens_eq (c : String) :
    (if (c ≠ "" && trimStr c ≠ "") = true then
      (if (hasChar c '\n' || hasChar c '\r') = true then splitTrimFilter c
       else [trimStr c])
     else []) =
    (if c ≠ "" then splitTrimFilter c else []) := by
  by_cases hc : c = ""
  · simp [hc]
  · by_cases ht : trimStr c = ""
    · rw [if_neg (by simp [hc, ht]), if_pos hc, splitTrimFilter_of_ws ht]
    · rw [if_pos (by simp [hc, ht]), if_pos hc]
      by_cases hn : hasChar c '\n' = true
      · rw [if_pos (by simp [hn])]
      · by_cases hr : hasChar c '\r' = true
        · rw [if_pos (by simp [hr])]
        · rw [if_neg (by simp [hn, hr]), splitTrimFilter_no_nl (by simpa using hn),
            if_neg ht]

/-! ### Helper lemmas: the status normalizer -/

theorem normalizeStatus_this_cases (c : String) :
    normalizeStatus c = "Completed" ∨ normalizeStatus c = "In Progress" ∨
    normalizeStatus c = "Yet to Start" := by
  unfold normalizeStatus
  by_cases hc : c = ""
  · rw [if_pos hc]
    right; right; rfl
  · rw [if_neg hc]
    dsimp only
    by_cases h1 : (strHasSub (lc c) "complete" || strHasSub (lc c) "done" ||
        strHasSub (lc c) "finish") = true
    · simp [h1]
    · by_cases h2 : (strHasSub (lc c) "progress" || strHasSub (lc c) "ongoing" ||
          strHasSub (lc c) "partial") = true
      · simp [h1, h2]
      · simp [h1, h2]

theorem normalizeStatus_ne_empty (c : String) : normalizeStatus c ≠ "" := by
  rcases normalizeStatus_this_cases c with h | h | h <;> rw [h] <;> decide

theorem normalizeStatus_idem (c : String) :
    normalizeStatus (normalizeStatus c) = normalizeStatus c := by
  rcases normalizeStatus_this_cases c with h | h | h <;> rw [h] <;> decide

theorem mergeStatus_self (s : String) : mergeStatus s s = s := by
  unfold mergeStatus
  split <;> rfl

theorem mergeStatus_yts (old : String) : mergeStatus old "Yet to Start" = old := by
  simp [mergeStatus]

theorem wsChar_toLower {ch : Char} (h : isWsChar ch = true) :
    isWsChar ch.toLower = true := by
  have h4 : ch = ' ' ∨ ch = '\t' ∨ ch = '\n' ∨ ch = '\r' := by
    simpa [isWsChar, or_assoc] using h
  rcases h4 with rfl | rfl | rfl | rfl <;> decide

theorem hasSubChars_ws_false : ∀ (l : List Char),
    (∀ ch ∈ l, isWsChar ch = true) → ∀ (p : Char) (ps : List Char),
    isWsChar p = false → hasSubChars (p :: ps) l = false
  | [], _, p, ps, _ => rfl
  | c :: cs, hws, p, ps, hp => by
    have hc : isWsChar c = true := hws c (List.mem_cons_self c cs)
    have hpc : (decide (p = c)) = false := by
      simp only [decide_eq_false_iff_not]
      intro e
      rw [e, hc] at hp
      exact absurd hp (by simp)
    simp only [hasSubChars, startsWithChars, hpc, Bool.false_and, Bool.false_or]
    exact hasSubChars_ws_false cs (fun x hx => hws x (List.mem_cons_of_mem c hx)) p ps hp

theorem strHasSub_ws_false {s : String} (hws : ∀ ch ∈ s.data, isWsChar ch = true)
    (pat : String) (p : Char) (ps : List Char) (hpat : pat.data = p :: ps)
    (hp : isWsChar p = false) : strHasSub s pat = false := by
  unfold strHasSub
  rw [hpat]
  exact hasSubChars_ws_false s.data hws p ps hp

theorem normalizeStatus_of_ws {c : String} (h : trimStr c = "") :
    normalizeStatus c = "Yet to Start" := by
  by_cases hc : c = ""
  · subst hc; rfl
  · have hall : ∀ ch ∈ c.data, isWsChar ch = true :=
      trimChars_eq_nil_iff.mp (trimStr_data h)
    have hallLc : ∀ ch ∈ (lc c).data, isWsChar ch = true := by
      intro ch hch
      obtain ⟨x, hx, rfl⟩ := List.mem_map.mp hch
      exact wsChar_toLower (hall x hx)
    unfold normalizeStatus
    rw [if_neg hc]
    dsimp only
    rw [strHasSub_ws_false hallLc "complete" 'c' "omplete".data (by decide) (by decide),
      strHasSub_ws_false hallLc "done" 'd' "one".data (by decide) (by decide),
      strHasSub_ws_false hallLc "finish" 'f' "inish".data (by decide) (by decide),
      strHasSub_ws_false hallLc "progress" 'p' "rogress".data (by decide) (by decide),
      strHasSub_ws_false hallLc "ongoing" 'o' "ngoing".data (by decide) (by decide),
      strHasSub_ws_false hallLc "partial" 'p' "artial".data (by decide) (by decide)]
    rfl

/-! ### Helper lemmas: status merging -/

theorem mergeStatus_completed (s : String) : mergeStatus "Completed" s = "Completed" := by
  by_cases hs : s = "Completed"
  · subst hs; simp [mergeStatus]
  · simp [mergeStatus, hs]

theorem statusPriority_le_two (s : String) : statusPriority s ≤ 2 := by
  unfold statusPriority
  split
  · exact le_refl 2
  · split
    · omega
    · omega

theorem statusPriority_le_mergeStatus (old s : String) :
    statusPriority old ≤ statusPriority (mergeStatus old s) := by
  unfold mergeStatus
  by_cases h : (s = "Completed" || (s = "In Progress" && old ≠ "Completed")) = true
  · rw [if_pos h]
    rcases Bool.or_eq_true_iff.mp h with h1 | h2
    · have hs : s = "Completed" := by simpa using h1
      subst hs
      simpa [statusPriority] using statusPriority_le_two old
    · have hs : s = "In Progress" ∧ old ≠ "Completed" := by simpa using h2
      obtain ⟨rfl, hold⟩ := hs
      unfold statusPriority
      rw [if_neg hold]
      split
      · simp
      · simp
  · rw [if_neg h]

theorem statusOf_nil (t : String) : statusOf [] t = none := rfl

theorem statusOf_updateItem_const {u t : String} {f : RoadmapItem → RoadmapItem}
    (hf : ∀ it, (f it).topic = it.topic)
    (hs : ∀ it, (f it).completionStatus = it.completionStatus) :
    ∀ (items : List RoadmapItem), statusOf (updateItem items u f) t = statusOf items t
  | [] => rfl
  | it :: items => by
    have htop : (if it.topic = u then f it else it).topic = it.topic := by
      by_cases hu : it.topic = u
      · rw [if_pos hu, hf]
      · rw [if_neg hu]
    have hstat : (if it.topic = u then f it else it).completionStatus = it.completionStatus := by
      by_cases hu : it.topic = u
      · rw [if_pos hu, hs]
      · rw [if_neg hu]
    unfold statusOf updateItem
    simp only [List.map_cons]
    by_cases h : it.topic = t
    · rw [List.find?_cons_of_pos _ (by rw [decide_eq_true_eq, htop]; exact h),
        List.find?_cons_of_pos _ (by rw [decide_eq_true_eq]; exact h)]
      simp [hstat]
    · rw [List.find?_cons_of_neg _ (by rw [decide_eq_true_eq, htop]; exact h),
        List.find?_cons_of_neg _ (by rw [decide_eq_true_eq]; exact h)]
      exact statusOf_updateItem_const hf hs items

theorem statusOf_updateItem_merge {u t s : String} {f : RoadmapItem → RoadmapItem}
    (hf : ∀ it, (f it).topic = it.topic)
    (hs : ∀ it, (f it).completionStatus = mergeStatus it.completionStatus s) :
    ∀ (items : List RoadmapItem),
      statusOf (updateItem items u f) t =
        (statusOf items t).map (fun old => if t = u then mergeStatus old s else old)
  | [] => rfl
  | it :: items => by
    have htop : (if it.topic = u then f it else it).topic = it.topic := by
      by_cases hu : it.topic = u
      · rw [if_pos hu, hf]
      · rw [if_neg hu]
    unfold statusOf updateItem
    simp only [List.map_cons]
    by_cases h : it.topic = t
    · rw [List.find?_cons_of_pos _ (by rw [decide_eq_true_eq, htop]; exact h),
        List.find?_cons_of_pos _ (by rw [decide_eq_true_eq]; exact h)]
      by_cases hu : it.topic = u
      · have htu : t = u := h.symm.trans hu
        rw [if_pos hu]
        simp [hs, htu]
      · have htu : ¬ t = u := fun e => hu (h.trans e)
        rw [if_neg hu]
        simp [htu]
    · rw [List.find?_cons_of_neg _ (by rw [decide_eq_true_eq, htop]; exact h),
        List.find?_cons_of_neg _ (by rw [decide_eq_true_eq]; exact h)]
      exact statusOf_updateItem_merge hf hs items

theorem statusOf_append_single (items : List RoadmapItem) (x : RoadmapItem) (t : String) :
    statusOf (items ++ [x]) t =
      match statusOf items t with
      | some s => some s
      | none => if x.topic = t then some x.completionStatus else none := by
  unfold statusOf
  rw [List.find?_append]
  cases h : items.find? (fun it => it.topic = t) with
  | some it => simp [h]
  | none =>
    simp only [h, Option.none_or, Option.map]
    by_cases hx : x.topic = t
    · simp [List.find?_cons, hx]
    · simp [List.find?_cons, hx]

theorem statusOf_excelSubPhase (cols : Cols) (u : String) (row : List String)
    (items : List RoadmapItem) (t : String) :
    statusOf (excelSubPhase cols u row items) t = statusOf items t := by
  unfold excelSubPhase
  cases cols.subIdx with
  | none => rfl
  | some j =>
    dsimp only
    by_cases h : (cellAt row j ≠ "" && trimStr (cellAt row j) ≠ "") = true
    · rw [if_pos h]
      apply statusOf_updateItem_const
      · exact fun it => rfl
      · exact fun it => rfl
    · rw [if_neg h]

theorem statusOf_excelProjPhase (cols : Cols) (u : String) (row : List String)
    (items : List RoadmapItem) (t : String) :
    statusOf (excelProjPhase cols u row items) t = statusOf items t := by
  unfold excelProjPhase
  cases cols.projIdx with
  | none => rfl
  | some j =>
    dsimp only
    by_cases h : (cellAt row j ≠ "" && trimStr (cellAt row j) ≠ "") = true
    · rw [if_pos h]
      apply statusOf_updateItem_const
      · exact fun it => rfl
      · exact fun it => rfl
    · rw [if_neg h]

theorem statusOf_excelStatusPhase_completed (cols : Cols) (u : String) (row : List String)
    (items : List RoadmapItem) (t : String) (h : statusOf items t = some "Completed") :
    statusOf (excelStatusPhase cols u row items) t = some "Completed" := by
  unfold excelStatusPhase
  cases cols.statusIdx with
  | none => exact h
  | some j =>
    dsimp only
    by_cases hc : (cellAt row j ≠ "" && trimStr (cellAt row j) ≠ "") = true
    · rw [if_pos hc, statusOf_updateItem_merge ?hf ?hs items, h]
      case hf => exact fun it => rfl
      case hs => exact fun it => rfl
      by_cases htu : t = u <;> simp [htu, mergeStatus_completed]
    · rw [if_neg hc]
      exact h

theorem statusOf_excelStatusPhase_priority (cols : Cols) (u : String) (row : List String)
    (items : List RoadmapItem) (t : String) :
    optPriority (statusOf items t) ≤
      optPriority (statusOf (excelStatusPhase cols u row items) t) := by
  unfold excelStatusPhase
  cases cols.statusIdx with
  | none => exact le_refl _
  | some j =>
    dsimp only
    by_cases hc : (cellAt row j ≠ "" && trimStr (cellAt row j) ≠ "") = true
    · rw [if_pos hc, statusOf_updateItem_merge ?hf ?hs items]
      case hf => exact fun it => rfl
      case hs => exact fun it => rfl
      cases hs : statusOf items t with
      | none => simp [optPriority]
      | some old =>
        by_cases htu : t = u
        · simpa [htu, optPriority] using statusPriority_le_mergeStatus old (normalizeStatus (cellAt row j))
        · simp [htu, optPriority]
    · rw [if_neg hc]

theorem excelStep_statusOf (cols : Cols) (st : List RoadmapItem × Option String)
    (row : List String) (t : String) :
    (statusOf st.1 t = some "Completed" →
      statusOf (excelStep cols st row).1 t = some "Completed") ∧
    optPriority (statusOf st.1 t) ≤ optPriority (statusOf (excelStep cols st row).1 t) := by
  unfold excelStep
  by_cases hk : (cellAt row cols.topicIdx ≠ "" && trimStr (cellAt row cols.topicIdx) ≠ "") = true
  · simp only [if_pos hk]
    set t' := trimStr (cellAt row cols.topicIdx)
    set items1 := (if hasTopic st.1 t' = true then st.1
      else st.1 ++ [⟨t', [], [],
        if optCell row cols.statusIdx ≠ "" then normalizeStatus (optCell row cols.statusIdx)
        else "Yet to Start"⟩]) with hitems1
    have base : (statusOf st.1 t = some "Completed" →
        statusOf items1 t = some "Completed") ∧
        optPriority (statusOf st.1 t) ≤ optPriority (statusOf items1 t) := by
      rw [hitems1]
      by_cases hh : hasTopic st.1 t' = true
      · rw [if_pos hh]
        exact ⟨fun h => h, le_refl _⟩
      · rw [if_neg hh, statusOf_append_single]
        cases hs : statusOf st.1 t with
        | some s => exact ⟨fun h => by simpa using h, le_refl _⟩
        | none => exact ⟨fun h => by simp at h, by simp [optPriority]⟩
    refine ⟨fun h => ?_, ?_⟩
    · have h1 := base.1 h
      rw [statusOf_excelStatusPhase_completed _ _ _ _ _ (by
        rw [statusOf_excelProjPhase, statusOf_excelSubPhase]; exact h1)]
    · calc optPriority (statusOf st.1 t) ≤ optPriority (statusOf items1 t) := base.2
        _ ≤ _ := by
          rw [← statusOf_excelSubPhase cols t' row items1 t,
            ← statusOf_excelProjPhase cols t' row (excelSubPhase cols t' row items1) t]
          exact statusOf_excelStatusPhase_priority cols t' row _ t
  · simp only [if_neg hk]
    cases hcur : st.2 with
    | none => exact ⟨fun h => h, le_refl _⟩
    | some u =>
      refine ⟨fun h => ?_, ?_⟩
      · show statusOf (excelStatusPhase cols u row
          (excelProjPhase cols u row (excelSubPhase cols u row st.1))) t = some "Completed"
        rw [statusOf_excelStatusPhase_completed _ _ _ _ _ (by
          rw [statusOf_excelProjPhase, statusOf_excelSubPhase]; exact h)]
      · show optPriority (statusOf st.1 t) ≤ optPriority (statusOf (excelStatusPhase cols u row
          (excelProjPhase cols u row (excelSubPhase cols u row st.1))) t)
        rw [← statusOf_excelSubPhase cols u row st.1 t,
          ← statusOf_excelProjPhase cols u row (excelSubPhase cols u row st.1) t]
        exact statusOf_excelStatusPhase_priority cols u row _ t

theorem excelFold_statusOf (cols : Cols) (t : String) :
    ∀ (rows : List (List String)) (st : List RoadmapItem × Option String),
      (statusOf st.1 t = some "Completed" →
        statusOf ((rows.foldl (excelStep cols) st)).1 t = some "Completed") ∧
      optPriority (statusOf st.1 t) ≤
        optPriority (statusOf ((rows.foldl (excelStep cols) st)).1 t)
  | [], st => ⟨fun h => h, le_refl _⟩
  | row :: rows, st => by
    rw [List.foldl_cons]
    have hstep := excelStep_statusOf cols st row t
    have hrest := excelFold_statusOf cols t rows (excelStep cols st row)
    exact ⟨fun h => hrest.1 (hstep.1 h), le_trans hstep.2 hrest.2⟩

theorem csvStep_statusOf (headers : List String) (hm : HeaderMapping)
    (items : List RoadmapItem) (row : List String) (t : String) :
    (statusOf items t = some "Completed" →
      statusOf (csvStep headers hm items row) t = some "Completed") ∧
    optPriority (statusOf items t) ≤ optPriority (statusOf (csvStep headers hm items row) t) := by
  unfold csvStep
  by_cases hk : csvKeyOfRow headers hm row = ""
  · simp only [hk, ite_true]
    exact ⟨fun h => h, le_refl _⟩
  · simp only [hk, ite_false]
    by_cases hh : hasTopic items (csvKeyOfRow headers hm row) = true
    · rw [if_pos hh, statusOf_updateItem_merge ?hf ?hs items]
      case hf => exact fun it => rfl
      case hs => exact fun it => rfl
      refine ⟨fun h => ?_, ?_⟩
      · rw [h]
        by_cases htu : t = csvKeyOfRow headers hm row <;> simp [htu, mergeStatus_completed]
      · cases hs : statusOf items t with
        | none => simp [optPriority]
        | some old =>
          by_cases htu : t = csvKeyOfRow headers hm row
          · simpa [htu, optPriority] using
              statusPriority_le_mergeStatus old (csvRowStatus headers hm row)
          · simp [htu, optPriority]
    · rw [if_neg hh, statusOf_append_single]
      cases hs : statusOf items t with
      | some s => exact ⟨fun h => by simpa using h, le_refl _⟩
      | none => exact ⟨fun h => by simp at h, by simp [optPriority]⟩

theorem csvFold_statusOf (headers : List String) (hm : HeaderMapping) (t : String) :
    ∀ (rows : List (List String)) (items : List RoadmapItem),
      (statusOf items t = some "Completed" →
        statusOf (rows.foldl (csvStep headers hm) items) t = some "Completed") ∧
      optPriority (statusOf items t) ≤
        optPriority (statusOf (rows.foldl (csvStep headers hm) items) t)
  | [], items => ⟨fun h => h, le_refl _⟩
  | row :: rows, items => by
    rw [List.foldl_cons]
    have hstep := csvStep_statusOf headers hm items row t
    have hrest := csvFold_statusOf headers hm t rows (csvStep headers hm items row)
    exact ⟨fun h => hrest.1 (hstep.1 h), le_trans hstep.2 hrest.2⟩

/-! ### Helper lemmas: project-token replay -/

theorem forall2_map_both {α β γ δ : Type} {R : α → β → Prop} {S : γ → δ → Prop}
    {f : α → γ} {g : β → δ} (hfg : ∀ a b, R a b → S (f a) (g b)) :
    ∀ {l₁ : List α} {l₂ : List β}, List.Forall₂ R l₁ l₂ →
      List.Forall₂ S (l₁.map f) (l₂.map g)
  | _, _, List.Forall₂.nil => List.Forall₂.nil
  | _, _, List.Forall₂.cons hab h =>
    List.Forall₂.cons (hfg _ _ hab) (forall2_map_both hfg h)

theorem forall2_map_left {α β : Type} {R : α → β → Prop} {f : α → α}
    (hf : ∀ a b, R a b → R (f a) b) :
    ∀ {l₁ : List α} {l₂ : List β}, List.Forall₂ R l₁ l₂ →
      List.Forall₂ R (l₁.map f) l₂
  | _, _, List.Forall₂.nil => List.Forall₂.nil
  | _, _, List.Forall₂.cons hab h =>
    List.Forall₂.cons (hf _ _ hab) (forall2_map_left hf h)

theorem forall2_append_single {α β : Type} {R : α → β → Prop} {a : α} {b : β}
    (hab : R a b) :
    ∀ {l₁ : List α} {l₂ : List β}, List.Forall₂ R l₁ l₂ →
      List.Forall₂ R (l₁ ++ [a]) (l₂ ++ [b])
  | _, _, List.Forall₂.nil => List.Forall₂.cons hab List.Forall₂.nil
  | _, _, List.Forall₂.cons hxy h =>
    List.Forall₂.cons hxy (forall2_append_single hab h)

theorem forall2_any_eq {α β : Type} {R : α → β → Prop} {p : α → Bool} {q : β → Bool}
    (hpq : ∀ a b, R a b → p a = q b) :
    ∀ {l₁ : List α} {l₂ : List β}, List.Forall₂ R l₁ l₂ → l₁.any p = l₂.any q
  | _, _, List.Forall₂.nil => rfl
  | _, _, List.Forall₂.cons hab h => by
    simp only [List.any_cons, hpq _ _ hab, forall2_any_eq hpq h]

theorem map_append_id {t : String} (pairs : List (String × List String)) :
    (pairs.map (fun p => if p.1 = t then (p.1, p.2 ++ ([] : List String)) else p)) = pairs := by
  have he : (fun p : String × List String =>
      if p.1 = t then (p.1, p.2 ++ ([] : List String)) else p) = fun p => p := by
    funext p
    by_cases hp : p.1 = t
    · rw [if_pos hp, List.append_nil]
    · rw [if_neg hp]
  rw [he]
  simp

theorem excelSubPhase_projRel (cols : Cols) (t : String) (row : List String)
    {items : List RoadmapItem} {pairs : List (String × List String)}
    (h : List.Forall₂ projRelE items pairs) :
    List.Forall₂ projRelE (excelSubPhase cols t row items) pairs := by
  unfold excelSubPhase
  cases cols.subIdx with
  | none => exact h
  | some j =>
    dsimp only
    by_cases hg : (cellAt row j ≠ "" && trimStr (cellAt row j) ≠ "") = true
    · rw [if_pos hg]
      unfold updateItem
      refine forall2_map_left (fun a b hab => ?_) h
      by_cases hat : a.topic = t
      · rw [if_pos hat]
        exact ⟨hab.1, hab.2⟩
      · rw [if_neg hat]
        exact hab
    · rw [if_neg hg]
      exact h

theorem excelStatusPhase_projRel (cols : Cols) (t : String) (row : List String)
    {items : List RoadmapItem} {pairs : List (String × List String)}
    (h : List.Forall₂ projRelE items pairs) :
    List.Forall₂ projRelE (excelStatusPhase cols t row items) pairs := by
  unfold excelStatusPhase
  cases cols.statusIdx with
  | none => exact h
  | some j =>
    dsimp only
    by_cases hg : (cellAt row j ≠ "" && trimStr (cellAt row j) ≠ "") = true
    · rw [if_pos hg]
      unfold updateItem
      refine forall2_map_left (fun a b hab => ?_) h
      by_cases hat : a.topic = t
      · rw [if_pos hat]
        exact ⟨hab.1, hab.2⟩
      · rw [if_neg hat]
        exact hab
    · rw [if_neg hg]
      exact h

theorem excelProjPhase_projRel (cols : Cols) (t : String) (row : List String)
    {items : List RoadmapItem} {pairs : List (String × List String)}
    (h : List.Forall₂ projRelE items pairs) :
    List.Forall₂ projRelE (excelProjPhase cols t row items)
      (pairs.map (fun p => if p.1 = t then (p.1, p.2 ++ excelProjTokensRow cols row) else p)) := by
  unfold excelProjPhase excelProjTokensRow
  cases cols.projIdx with
  | none =>
    dsimp only
    rw [map_append_id]
    exact h
  | some j =>
    dsimp only
    by_cases hg : (cellAt row j ≠ "" && trimStr (cellAt row j) ≠ "") = true
    · simp only [if_pos hg]
      unfold updateItem
      refine forall2_map_both (fun a b hab => ?_) h
      by_cases hat : a.topic = t
      · have hbt : b.1 = t := hab.1 ▸ hat
        rw [if_pos hat, if_pos hbt]
        refine ⟨hab.1, ?_⟩
        show addIfAbsent a.projects (trimStr (cellAt row j)) =
          firstDedup (b.2 ++ [trimStr (cellAt row j)])
        rw [hab.2, firstDedup_singleton_step]
      · have hbt : ¬ b.1 = t := fun e => hat (hab.1.trans e)
        rw [if_neg hat, if_neg hbt]
        exact hab
    · simp only [if_neg hg, map_append_id]
      exact h

theorem excelStep_projRel (cols : Cols) (st : List RoadmapItem × Option String)
    (racc : List (String × List String) × Option String) (row : List String)
    (hrel : List.Forall₂ projRelE st.1 racc.1) (hcur : st.2 = racc.2) :
    List.Forall₂ projRelE (excelStep cols st row).1 (excelProjReplayStep cols racc row).1 ∧
    (excelStep cols st row).2 = (excelProjReplayStep cols racc row).2 := by
  unfold excelStep excelProjReplayStep excelKeyOfRow
  by_cases hk : (cellAt row cols.topicIdx ≠ "" && trimStr (cellAt row cols.topicIdx) ≠ "") = true
  · simp only [if_pos hk]
    set t := trimStr (cellAt row cols.topicIdx)
    have hany : hasTopic st.1 t = racc.1.any (fun p => p.1 = t) :=
      forall2_any_eq (fun a b hab => by simp [hasTopic, hab.1]) hrel
    by_cases hh : hasTopic st.1 t = true
    · simp only [hh, if_true, ← hany, ite_true]
      exact ⟨excelStatusPhase_projRel cols t row (excelProjPhase_projRel cols t row
        (excelSubPhase_projRel cols t row hrel)), by trivial⟩
    · simp only [hh, if_false, ← hany, ite_false]
      have hrel2 : List.Forall₂ projRelE (st.1 ++ [⟨t, [], [],
          if optCell row cols.statusIdx ≠ "" then normalizeStatus (optCell row cols.statusIdx)
          else "Yet to Start"⟩]) (racc.1 ++ [(t, [])]) :=
        forall2_append_single ⟨rfl, rfl⟩ hrel
      exact ⟨excelStatusPhase_projRel cols t row (excelProjPhase_projRel cols t row
        (excelSubPhase_projRel cols t row hrel2)), by trivial⟩
  · simp only [if_neg hk]
    rw [← hcur]
    cases hc : st.2 with
    | none => exact ⟨hrel, hcur⟩
    | some t =>
      exact ⟨excelStatusPhase_projRel cols t row (excelProjPhase_projRel cols t row
        (excelSubPhase_projRel cols t row hrel)), by trivial⟩

theorem excelFold_projRel (cols : Cols) :
    ∀ (rows : List (List String)) (st : List RoadmapItem × Option String)
      (racc : List (String × List String) × Option String),
      List.Forall₂ projRelE st.1 racc.1 → st.2 = racc.2 →
      List.Forall₂ projRelE ((rows.foldl (excelStep cols) st)).1
        ((rows.foldl (excelProjReplayStep cols) racc)).1
  | [], st, racc, hrel, _ => hrel
  | row :: rows, st, racc, hrel, hcur => by
    rw [List.foldl_cons, List.foldl_cons]
    have hstep := excelStep_projRel cols st racc row hrel hcur
    exact excelFold_projRel cols rows _ _ hstep.1 hstep.2

theorem csvStep_projRel (headers : List String) (hm : HeaderMapping)
    {items : List RoadmapItem} {acc : List (String × List String)}
    (row : List String) (hrel : List.Forall₂ projRelC items acc) :
    List.Forall₂ projRelC (csvStep headers hm items row)
      (csvProjReplayStep headers hm acc row) := by
  unfold csvStep csvProjReplayStep
  by_cases hk : csvKeyOfRow headers hm row = ""
  · simp only [hk, ite_true]
    exact hrel
  · simp only [hk, ite_false]
    set t := csvKeyOfRow headers hm row
    have hany : hasTopic items t = acc.any (fun p => p.1 = t) :=
      forall2_any_eq (fun a b hab => by simp [hasTopic, hab.1]) hrel
    by_cases hh : hasTopic items t = true
    · simp only [hh, if_true, ← hany, ite_true]
      unfold updateItem
      refine forall2_map_both (fun a b hab => ?_) hrel
      by_cases hat : a.topic = t
      · have hbt : b.1 = t := hab.1 ▸ hat
        rw [if_pos hat, if_pos hbt]
        refine ⟨hab.1, ?_⟩
        show firstDedup (List.foldl addIfAbsent a.projects (csvProjTokensRow headers hm row)) =
          firstDedup (b.2 ++ csvProjTokensRow headers hm row)
        rw [firstDedup_foldl_addIfAbsent, firstDedup_append, hab.2, ← firstDedup_append]
      · have hbt : ¬ b.1 = t := fun e => hat (hab.1.trans e)
        rw [if_neg hat, if_neg hbt]
        exact hab
    · simp only [hh, if_false, ← hany, ite_false]
      exact forall2_append_single ⟨rfl, rfl⟩ hrel

theorem csvFold_projRel (headers : List String) (hm : HeaderMapping) :
    ∀ (rows : List (List String)) (items : List RoadmapItem)
      (acc : List (String × List String)),
      List.Forall₂ projRelC items acc →
      List.Forall₂ projRelC (rows.foldl (csvStep headers hm) items)
        (rows.foldl (csvProjReplayStep headers hm) acc)
  | [], _, _, hrel => hrel
  | row :: rows, items, acc, hrel => by
    rw [List.foldl_cons, List.foldl_cons]
    exact csvFold_projRel headers hm rows _ _ (csvStep_projRel headers hm row hrel)

/-! ### Helper lemmas: round-trip equivalence -/

theorem updateItem_id (items : List RoadmapItem) (t : String) :
    updateItem items t (fun it => it) = items := by
  unfold updateItem
  have he : (fun it : RoadmapItem => if it.topic = t then it else it) = fun it => it := by
    funext it
    by_cases h : it.topic = t <;> simp [h]
  rw [he]
  simp

theorem updateItem_of_not_hasTopic {items : List RoadmapItem} {t : String}
    (f : RoadmapItem → RoadmapItem) (h : hasTopic items t = false) :
    updateItem items t f = items := by
  unfold updateItem
  have hall : ∀ it ∈ items, ¬ it.topic = t := by
    intro it hit
    intro e
    have : hasTopic items t = true := hasTopic_iff.mpr (List.mem_map.mpr ⟨it, hit, e⟩)
    rw [h] at this
    exact absurd this (by simp)
  rw [List.map_congr_left (fun it hit => if_neg (hall it hit))]
  simp

theorem updateItem_append (items₁ items₂ : List RoadmapItem) (t : String)
    (f : RoadmapItem → RoadmapItem) :
    updateItem (items₁ ++ items₂) t f = updateItem items₁ t f ++ updateItem items₂ t f :=
  List.map_append _ items₁ items₂

theorem updateItem_comp (items : List RoadmapItem) (t : String)
    (f g : RoadmapItem → RoadmapItem) (hf : ∀ it, (f it).topic = it.topic) :
    updateItem (updateItem items t f) t g = updateItem items t (fun it => g (f it)) := by
  unfold updateItem
  rw [List.map_map]
  refine List.map_congr_left fun it _ => ?_
  simp only [Function.comp]
  by_cases h : it.topic = t
  · have hft : (f it).topic = t := by rw [hf]; exact h
    rw [if_pos h, if_pos hft, if_pos h]
  · rw [if_neg h, if_neg h, if_neg h]

theorem excelSubPhase_eq (cols : Cols) (t : String) (row : List String)
    (items : List RoadmapItem) :
    excelSubPhase cols t row items = updateItem items t
      (fun it => { it with
        subTopics := (excelSubCellTokens cols.subIdx row).foldl addIfAbsent it.subTopics }) := by
  unfold excelSubPhase excelSubCellTokens
  cases cols.subIdx with
  | none => exact (updateItem_id items t).symm
  | some j =>
    dsimp only
    by_cases hg : (cellAt row j ≠ "" && trimStr (cellAt row j) ≠ "") = true
    · simp only [if_pos hg]
    · simp only [if_neg hg]
      exact (updateItem_id items t).symm

theorem excelProjPhase_eq (cols : Cols) (t : String) (row : List String)
    (items : List RoadmapItem) :
    excelProjPhase cols t row items = updateItem items t
      (fun it => { it with
        projects := (excelProjTokensRow cols row).foldl addIfAbsent it.projects }) := by
  unfold excelProjPhase excelProjTokensRow
  cases cols.projIdx with
  | none => exact (updateItem_id items t).symm
  | some j =>
    dsimp only
    by_cases hg : (cellAt row j ≠ "" && trimStr (cellAt row j) ≠ "") = true
    · simp only [if_pos hg]
      rfl
    · simp only [if_neg hg]
      exact (updateItem_id items t).symm

theorem excelStatusPhase_eq (cols : Cols) (t : String) (row : List String)
    (items : List RoadmapItem) :
    excelStatusPhase cols t row items = updateItem items t
      (fun it => { it with
        completionStatus :=
          mergeStatus it.completionStatus (excelStatusSignal cols.statusIdx row) }) := by
  have hyts : (fun it : RoadmapItem =>
      { it with completionStatus := mergeStatus it.completionStatus "Yet to Start" }) =
      fun it => it := by
    funext it
    rw [mergeStatus_yts]
  unfold excelStatusPhase excelStatusSignal
  cases cols.statusIdx with
  | none =>
    rw [hyts, updateItem_id]
  | some j =>
    dsimp only
    by_cases hg : (cellAt row j ≠ "" && trimStr (cellAt row j) ≠ "") = true
    · simp only [if_pos hg]
    · simp only [if_neg hg]
      rw [hyts, updateItem_id]

theorem rowGet4_0 (a b c d w x y z : String) (h1 : ¬ b = a) (h2 : ¬ c = a)
    (h3 : ¬ d = a) : rowGet [a, b, c, d] [w, x, y, z] a = w := by
  simp [rowGet, List.find?, h1, h2, h3]

theorem rowGet4_1 (a b c d w x y z : String) (h1 : ¬ c = b) (h2 : ¬ d = b) :
    rowGet [a, b, c, d] [w, x, y, z] b = x := by
  simp [rowGet, List.find?, h1, h2]

theorem rowGet4_2 (a b c d w x y z : String) (h1 : ¬ d = c) :
    rowGet [a, b, c, d] [w, x, y, z] c = y := by
  simp [rowGet, List.find?, h1]

theorem rowGet4_3 (a b c d w x y z : String) :
    rowGet [a, b, c, d] [w, x, y, z] d = z := by
  simp [rowGet, List.find?]

theorem excelSubCellTokens_form (subIdx : Option Nat) (row : List String) :
    excelSubCellTokens subIdx row =
      (if optCell row subIdx ≠ "" then splitTrimFilter (optCell row subIdx) else []) := by
  cases subIdx with
  | none => simp [excelSubCellTokens, optCell]
  | some j => exact subCellTokens_eq (cellAt row j)

theorem excelStatusSignal_normalize (row : List String) :
    ∀ (statusIdx : Option Nat),
      excelStatusSignal statusIdx row =
        normalizeStatus (match statusIdx with
          | some j => cellAt row j
          | none => "") := by
  intro statusIdx
  cases statusIdx with
  | none =>
    show "Yet to Start" = normalizeStatus ""
    decide
  | some j =>
    unfold excelStatusSignal
    dsimp only
    by_cases hg : (cellAt row j ≠ "" && trimStr (cellAt row j) ≠ "") = true
    · rw [if_pos hg]
    · rw [if_neg hg]
      by_cases hc : cellAt row j = ""
      · rw [hc]; rfl
      · have ht : trimStr (cellAt row j) = "" := by
          by_contra ht
          exact hg (by simp [hc, ht])
        rw [normalizeStatus_of_ws ht]

theorem excelInitStatus_eq_signal (statusIdx : Option Nat) (row : List String) :
    (if optCell row statusIdx ≠ "" then normalizeStatus (optCell row statusIdx)
     else "Yet to Start") = excelStatusSignal statusIdx row := by
  rw [excelStatusSignal_normalize]
  cases statusIdx with
  | none =>
    show (if ("" : String) ≠ "" then normalizeStatus "" else "Yet to Start") = normalizeStatus ""
    rw [if_neg (by simp)]
    decide
  | some j =>
    dsimp only [optCell]
    by_cases hc : cellAt row j = ""
    · rw [if_neg (by simp [hc]), hc]
      rfl
    · rw [if_pos (by simp [hc])]

theorem excelStep_normal (ti : Nat) (subI projI statI : Option Nat)
    (row : List String) (items₁ : List RoadmapItem) (cur : Option String)
    (hcond : (cellAt row ti ≠ "" && trimStr (cellAt row ti) ≠ "") = true)
    (htt : trimStr (cellAt row ti) = cellAt row ti) :
    (excelStep ⟨ti, subI, projI, statI⟩ (items₁, cur) row).1 =
      updateItem
        (if hasTopic items₁ (cellAt row ti) = true then items₁
         else items₁ ++ [⟨cellAt row ti, [], [], excelStatusSignal statI row⟩])
        (cellAt row ti)
        (fun it =>
          { topic := it.topic
            subTopics := (excelSubCellTokens subI row).foldl addIfAbsent it.subTopics
            projects :=
              (excelProjTokensRow ⟨ti, subI, projI, statI⟩ row).foldl addIfAbsent it.projects
            completionStatus :=
              mergeStatus it.completionStatus (excelStatusSignal statI row) }) := by
  have hcond2 : (cellAt row ti ≠ "" && cellAt row ti ≠ "") = true := by
    simpa [htt] using hcond
  unfold excelStep
  simp only [htt]
  simp only [if_pos hcond2]
  rw [excelSubPhase_eq, excelProjPhase_eq, excelStatusPhase_eq,
    updateItem_comp _ _ _ _ ?hf1, updateItem_comp _ _ _ _ ?hf2]
  case hf1 => exact fun it => rfl
  case hf2 => exact fun it => rfl
  rw [excelInitStatus_eq_signal]

theorem csvStep_pos (a b c d c0 c1 c2 c3 : String) (items₂ : List RoadmapItem)
    (hba : ¬ b = a) (hca : ¬ c = a) (hda : ¬ d = a) (hcb : ¬ c = b) (hdb : ¬ d = b)
    (hdc : ¬ d = c) (h0 : c0 ≠ "") :
    csvStep [a, b, c, d] (positionalMapping [a, b, c, d]) items₂ [c0, c1, c2, c3] =
      (if hasTopic items₂ c0 = true then
        updateItem items₂ c0 (fun it =>
          { topic := it.topic
            subTopics :=
              (if c1 ≠ "" then splitTrimFilter c1 else []).foldl addIfAbsent it.subTopics
            projects :=
              (if c2 ≠ "" then
                (if hasChar c2 '\n' then splitTrimFilter c2 else [trimStr c2])
               else []).foldl addIfAbsent it.projects
            completionStatus := mergeStatus it.completionStatus
              (if c3 ≠ "" then normalizeStatus c3 else "Yet to Start") })
       else items₂ ++ [⟨c0, (if c1 ≠ "" then splitTrimFilter c1 else []),
         (if c2 ≠ "" then
           (if hasChar c2 '\n' then splitTrimFilter c2 else [trimStr c2])
          else []),
         (if c3 ≠ "" then normalizeStatus c3 else "Yet to Start")⟩]) := by
  unfold csvStep csvKeyOfRow csvSubTokensRow csvProjTokensRow csvRowStatus
  dsimp only [positionalMapping]
  have e0 : ([a, b, c, d] : List String).getD 0 "" = a := rfl
  have e1 : ([a, b, c, d] : List String).getD 1 "" = b := rfl
  have e2 : ([a, b, c, d] : List String).getD 2 "" = c := rfl
  have e3 : ([a, b, c, d] : List String).getD 3 "" = d := rfl
  rw [e0, e1, e2, e3]
  rw [rowGet4_0 a b c d c0 c1 c2 c3 hba hca hda,
    rowGet4_1 a b c d c0 c1 c2 c3 hcb hdb,
    rowGet4_2 a b c d c0 c1 c2 c3 hdc,
    rowGet4_3 a b c d c0 c1 c2 c3]
  rw [if_neg h0]

theorem excelProjTokens_form (ti : Nat) (subI projI statI : Option Nat)
    (row : List String)
    (hp : optCell row projI = "" ∨
      (trimStr (optCell row projI) ≠ "" ∧ hasChar (optCell row projI) '\n' = false)) :
    excelProjTokensRow ⟨ti, subI, projI, statI⟩ row =
      (if optCell row projI ≠ "" then
        (if hasChar (optCell row projI) '\n' then splitTrimFilter (optCell row projI)
         else [trimStr (optCell row projI)])
       else []) := by
  cases projI with
  | none => simp [excelProjTokensRow, optCell]
  | some j =>
    dsimp only [excelProjTokensRow, optCell] at hp ⊢
    rcases hp with hp | hp
    · rw [hp]
      simp
    · have hc : cellAt row j ≠ "" := by
        intro e
        rw [e] at hp
        exact hp.1 rfl
      rw [if_pos (by simp [hc, hp.1]), if_pos hc, if_neg (by simp [hp.2])]

theorem excelStatusSignal_form (statI : Option Nat) (row : List String) :
    excelStatusSignal statI row =
      (if convStatusCell statI row ≠ "" then normalizeStatus (convStatusCell statI row)
       else "Yet to Start") := by
  cases statI with
  | none =>
    show "Yet to Start" =
      if ("Yet to Start" : String) ≠ "" then normalizeStatus "Yet to Start" else "Yet to Start"
    rw [if_pos (by decide)]
    decide
  | some j =>
    show excelStatusSignal (some j) row =
      if normalizeStatus (cellAt row j) ≠ "" then
        normalizeStatus (normalizeStatus (cellAt row j))
      else "Yet to Start"
    rw [if_pos (by simpa using normalizeStatus_ne_empty (cellAt row j))]
    rw [normalizeStatus_idem]
    exact excelStatusSignal_normalize row (some j)

theorem c1_step (ti : Nat) (subI projI statI : Option Nat) (a b c d : String)
    (row : List String) (items₁ items₂ : List RoadmapItem) (cur : Option String)
    (hba : ¬ b = a) (hca : ¬ c = a) (hda : ¬ d = a) (hcb : ¬ c = b) (hdb : ¬ d = b)
    (hdc : ¬ d = c)
    (ht : cellAt row ti ≠ "") (htt : trimStr (cellAt row ti) = cellAt row ti)
    (hp : optCell row projI = "" ∨
      (trimStr (optCell row projI) ≠ "" ∧ hasChar (optCell row projI) '\n' = false))
    (hrel : List.Forall₂ relB items₁ items₂) :
    List.Forall₂ relB (excelStep ⟨ti, subI, projI, statI⟩ (items₁, cur) row).1
      (csvStep [a, b, c, d] (positionalMapping [a, b, c, d]) items₂
        (convRow ti subI projI statI row)) := by
  have hcond : (cellAt row ti ≠ "" && trimStr (cellAt row ti) ≠ "") = true := by
    rw [htt]
    simp [ht]
  have hconv : convRow ti subI projI statI row =
      [cellAt row ti, optCell row subI, optCell row projI,
       convStatusCell statI row] := rfl
  rw [hconv,
    excelStep_normal ti subI projI statI row items₁ cur hcond htt,
    csvStep_pos a b c d _ _ _ _ items₂ hba hca hda hcb hdb hdc ht,
    excelSubCellTokens_form subI row,
    excelProjTokens_form ti subI projI statI row hp,
    excelStatusSignal_form statI row]
  set toksS := (if optCell row subI ≠ "" then splitTrimFilter (optCell row subI) else [])
  set toksP := (if optCell row projI ≠ "" then
    (if hasChar (optCell row projI) '\n' then splitTrimFilter (optCell row projI)
     else [trimStr (optCell row projI)])
   else [])
  set sig := (if convStatusCell statI row ≠ "" then
    normalizeStatus (convStatusCell statI row)
   else "Yet to Start")
  have hany : hasTopic items₁ (cellAt row ti) = hasTopic items₂ (cellAt row ti) :=
    forall2_any_eq (fun x y hxy => by rw [hxy.1]) hrel
  by_cases hh : hasTopic items₁ (cellAt row ti) = true
  · have hh2 : hasTopic items₂ (cellAt row ti) = true := hany.symm.trans hh
    rw [if_pos hh, if_pos hh2]
    unfold updateItem
    refine forall2_map_both (fun x y hxy => ?_) hrel
    by_cases hxt : x.topic = cellAt row ti
    · have hyt : y.topic = cellAt row ti := hxy.1 ▸ hxt
      rw [if_pos hxt, if_pos hyt]
      refine ⟨hxy.1, ?_, ?_, ?_⟩
      · show List.foldl addIfAbsent x.subTopics toksS =
          firstDedup (List.foldl addIfAbsent y.subTopics toksS)
        rw [hxy.2.1, firstDedup_foldl_addIfAbsent, firstDedup_append]
      · show List.foldl addIfAbsent x.projects toksP =
          firstDedup (List.foldl addIfAbsent y.projects toksP)
        rw [hxy.2.2.1, firstDedup_foldl_addIfAbsent, firstDedup_append]
      · show mergeStatus x.completionStatus sig = mergeStatus y.completionStatus sig
        rw [hxy.2.2.2]
    · have hyt : ¬ y.topic = cellAt row ti := fun e => hxt (hxy.1.trans e)
      rw [if_neg hxt, if_neg hyt]
      exact hxy
  · have hh2 : ¬ hasTopic items₂ (cellAt row ti) = true := fun e => hh (hany.trans e)
    rw [if_neg hh, if_neg hh2, updateItem_append,
      updateItem_of_not_hasTopic _ (by simpa using hh)]
    have hsingle : updateItem [(⟨cellAt row ti, [], [], sig⟩ : RoadmapItem)]
        (cellAt row ti)
        (fun it =>
          { topic := it.topic
            subTopics := toksS.foldl addIfAbsent it.subTopics
            projects := toksP.foldl addIfAbsent it.projects
            completionStatus := mergeStatus it.completionStatus sig }) =
        [⟨cellAt row ti, firstDedup toksS, firstDedup toksP, sig⟩] := by
      unfold updateItem
      simp only [List.map_cons, List.map_nil, if_pos rfl]
      rw [mergeStatus_self]
      rfl
    rw [hsingle]
    exact forall2_append_single ⟨rfl, rfl, rfl, rfl⟩ hrel

theorem forall2_map_eq {α β γ : Type} {R : α → β → Prop} {f : α → γ} {g : β → γ}
    (h : ∀ a b, R a b → f a = g b) :
    ∀ {l₁ : List α} {l₂ : List β}, List.Forall₂ R l₁ l₂ → l₁.map f = l₂.map g
  | _, _, List.Forall₂.nil => rfl
  | _, _, List.Forall₂.cons hab hl => by
    simp only [List.map_cons, h _ _ hab, forall2_map_eq h hl]

theorem filter_all_true {α : Type} (p : α → Bool) :
    ∀ (l : List α), (∀ a ∈ l, p a = true) → l.filter p = l
  | [], _ => rfl
  | x :: l, h => by
    rw [List.filter_cons, if_pos (h x (List.mem_cons_self x l)),
      filter_all_true p l (fun a ha => h a (List.mem_cons_of_mem x ha))]

theorem c1_fold (ti : Nat) (subI projI statI : Option Nat) (a b c d : String)
    (hba : ¬ b = a) (hca : ¬ c = a) (hda : ¬ d = a) (hcb : ¬ c = b) (hdb : ¬ d = b)
    (hdc : ¬ d = c) :
    ∀ (rows : List (List String)) (items₁ items₂ : List RoadmapItem) (cur : Option String),
      (∀ row ∈ rows, cellAt row ti ≠ "" ∧ trimStr (cellAt row ti) = cellAt row ti ∧
        (optCell row projI = "" ∨
          (trimStr (optCell row projI) ≠ "" ∧ hasChar (optCell row projI) '\n' = false))) →
      List.Forall₂ relB items₁ items₂ →
      List.Forall₂ relB
        ((rows.foldl (excelStep ⟨ti, subI, projI, statI⟩) (items₁, cur)).1)
        (rows.foldl (fun acc row =>
          csvStep [a, b, c, d] (positionalMapping [a, b, c, d]) acc
            (convRow ti subI projI statI row)) items₂)
  | [], items₁, items₂, cur, _, hrel => hrel
  | row :: rs, items₁, items₂, cur, hcond, hrel => by
    rw [List.foldl_cons, List.foldl_cons]
    have hr := hcond row (List.mem_cons_self row rs)
    have hstep := c1_step ti subI projI statI a b c d row items₁ items₂ cur
      hba hca hda hcb hdb hdc hr.1 hr.2.1 hr.2.2 hrel
    exact c1_fold ti subI projI statI a b c d hba hca hda hcb hdb hdc rs
      (excelStep ⟨ti, subI, projI, statI⟩ (items₁, cur) row).1
      (csvStep [a, b, c, d] (positionalMapping [a, b, c, d]) items₂
        (convRow ti subI projI statI row))
      (excelStep ⟨ti, subI, projI, statI⟩ (items₁, cur) row).2
      (fun r hrm => hcond r (List.mem_cons_of_mem row hrm)) hstep

theorem convertSheet_reduce (sheetName : String) (rows : List (List String)) (ti : Nat)
    (hs : List String) (hhs : hs = (rows.headD []).map trimStr)
    (h1 : lc sheetName ≠ "readme") (h2 : lc sheetName ≠ "instructions")
    (h3 : 3 ≤ rows.length)
    (h5 : findColumnIndex hs ["topics", "topic", "technology"] = some ti)
    (h9 : ∀ row ∈ rows.drop 1, cellAt row ti ≠ "") :
    convertSheet sheetName rows = .ok (convHeaderRow hs ti ::
      (rows.drop 1).map (convRow ti
        (findColumnIndex hs ["sub-topics", "subtopics", "sub-topic", "subtopic"])
        (findColumnIndex hs
          ["project/app to build", "projects", "projects/apps built", "application"])
        (findColumnIndex hs ["status of completion", "status", "completion"]))) := by
  subst hhs
  unfold convertSheet
  rw [if_neg (by simp [h1, h2]), if_neg (by omega), if_neg (by omega)]
  dsimp only
  rw [h5]
  dsimp only
  rw [filter_all_true (fun row => decide (cellAt row ti ≠ "")) (rows.drop 1)
    (fun row hr => by simpa using h9 row hr)]
  rw [if_neg ?hlen]
  case hlen =>
    simp only [List.length_cons, List.length_map, List.length_drop]
    omega
  rfl

theorem importItems_reduce (sheetName : String) (rows : List (List String)) (ti : Nat)
    (hs : List String) (hhs : hs = (rows.headD []).map trimStr)
    (h1 : lc sheetName ≠ "readme") (h2 : lc sheetName ≠ "instructions")
    (h3 : 2 ≤ rows.length)
    (h4 : importTopicIdx hs = some ti)
    (hne : ((rows.drop 1).foldl
      (excelStep ⟨ti, importSubIdx hs, importProjIdx hs, importStatusIdx hs⟩)
      ([], none)).1 ≠ []) :
    importItems sheetName rows = some (((rows.drop 1).foldl
      (excelStep ⟨ti, importSubIdx hs, importProjIdx hs, importStatusIdx hs⟩)
      ([], none)).1) := by
  subst hhs
  unfold importItems importSheet
  rw [if_neg (by simp [h1, h2]), if_neg (by omega)]
  dsimp only
  rw [h4]
  dsimp only
  rw [if_neg (by simpa [List.length_eq_zero] using hne)]

theorem excelItems_ne_nil (cols : Cols) (rs : List (List String)) (r : List String)
    (rest : List (List String)) (hrows : rs = r :: rest)
    (hr : cellAt r cols.topicIdx ≠ "") (htr : trimStr (cellAt r cols.topicIdx) ≠ "") :
    ((rs.foldl (excelStep cols) ([], none)).1) ≠ [] := by
  intro hnil
  have htop := excelTopics_eq_firstDedup cols rs
  rw [hnil] at htop
  have hkeys : excelTopicKeys cols rs =
      trimStr (cellAt r cols.topicIdx) :: excelTopicKeys cols rest := by
    rw [hrows]
    unfold excelTopicKeys excelKeyOfRow
    simp only [List.filterMap_cons]
    rw [if_pos (by simp [hr, htr])]
  rw [hkeys] at htop
  have hmem : trimStr (cellAt r cols.topicIdx) ∈
      firstDedup (trimStr (cellAt r cols.topicIdx) :: excelTopicKeys cols rest) :=
    mem_firstDedup.mpr (List.mem_cons_self _ _)
  rw [← htop] at hmem
  simp at hmem

theorem processCSVGrid_reduce (hdr : List String) (dataRows : List (List String))
    (name desc : String) (hne : dataRows ≠ [])
    (hmap : resolveCSVMapping (papaHeaders hdr) = positionalMapping (papaHeaders hdr)) :
    processCSVGrid (hdr :: dataRows) name desc =
      .ok ⟨name, desc, mappedCustomHeaders (positionalMapping (papaHeaders hdr)),
        dataRows.foldl (csvStep (papaHeaders hdr) (positionalMapping (papaHeaders hdr)))
          []⟩ := by
  obtain ⟨a, l, rfl⟩ := List.exists_cons_of_ne_nil hne
  unfold processCSVGrid
  have hd : ((hdr :: a :: l).drop 1) = a :: l := rfl
  have hh : ((hdr :: a :: l).headD []) = hdr := rfl
  dsimp only
  rw [hd, hh, if_neg ?hie]
  case hie => simp
  rw [hmap]
  rfl

/-! ### Theorems -/

/-- C5: the status normalizer equals the reference function of the spec for
every input string; in particular `normalize("Partially complete")` is
"Completed" because the `complete` rule is checked before `partial`, and the
empty input yields "Yet to Start". -/
theorem c5_normalizeStatus_spec :
    (∀ s, normalizeStatus s = normalizeStatusSpec s) ∧
    normalizeStatus "Partially complete" = "Completed" ∧
    normalizeStatus "" = "Yet to Start" := by
  refine ⟨fun s => ?_, by decide, by decide⟩
  by_cases h : s = ""
  · subst h; decide
  · simp [normalizeStatus, h, normalizeStatusSpec]

/-- C7 (code bug): the workbook import path processes a sheet consisting of a
header row plus one data row, but the convert entry point skips the very same
sheet as having insufficient data, because `range.e.r < 2` requires at least
three rows while the code's own comment demands "At least 2 rows
(header + data)". -/
theorem c7_two_row_sheet_divergence :
    convertSheet "React" [["Topic"], ["Hooks"]] = .skippedInsufficient ∧
    importSheet "React" [["Topic"], ["Hooks"]] =
      .ok ⟨"Topic", "Sub-Topics", "Project / Task", "Status"⟩
        [⟨"Hooks", [], [], "Yet to Start"⟩] := by
  constructor
  · decide
  · decide

/-- C2 (counterexample): in the workbook import path a projects cell
containing a line break is NOT split: the sheet below yields the single
project "A\nB" where the claim's split-and-dedup rule predicts the two
projects "A" and "B". -/
theorem c2_counterexample :
    importSheet "S" [["Topic", "Project"], ["T", "A\nB"]] =
      .ok ⟨"Topic", "Sub-Topics", "Project", "Status"⟩
        [⟨"T", [], ["A\nB"], "Yet to Start"⟩] ∧
    splitTrimFilter "A\nB" = ["A", "B"] ∧
    (["A\nB"] : List String) ≠ ["A", "B"] := by
  refine ⟨by decide, by decide, by decide⟩

/-- C6 (counterexample): a header "Technology" is matched by the claim's
synonym list but not by the workbook import path, which only matches the
substring `topic`; the sheet is skipped with the missing-topic-column
condition. -/
theorem c6_counterexample :
    importTopicIdx ["Technology"] = none ∧
    specTopicResolver ["Technology"] = some 0 ∧
    importSheet "S" [["Technology"], ["React"]] = .skippedNoTopic := by
  refine ⟨by decide, by decide, by decide⟩

/-- C3: in both ingestion paths the emitted list of roadmap items never
contains two items with the same topic: rows repeating a seen topic are
merged into the existing record instead of creating a duplicate. -/
theorem c3_topics_nodup :
    (∀ (cols : Cols) (rows : List (List String)),
      (((rows.foldl (excelStep cols) ([], none)).1).map (fun it => it.topic)).Nodup) ∧
    (∀ (headers : List String) (hm : HeaderMapping) (rows : List (List String)),
      ((rows.foldl (csvStep headers hm) []).map (fun it => it.topic)).Nodup) := by
  constructor
  · intro cols rows
    rw [excelTopics_eq_firstDedup]
    exact firstDedup_nodup _
  · intro headers hm rows
    rw [csvTopics_eq_firstDedup]
    exact firstDedup_nodup _

/-- C8 (amended): the workbook import path trims the topic cell before using
it as aggregation key and stored topic — its emitted topics are exactly the
first-occurrence dedup of the trimmed keys — while the CSV path uses the raw
untrimmed cell, so surrounding whitespace distinguishes keys there. -/
theorem c8_amended :
    (∀ (cols : Cols) (rows : List (List String)),
      ((rows.foldl (excelStep cols) ([], none)).1).map (fun it => it.topic) =
        firstDedup (excelTopicKeys cols rows)) ∧
    (∀ (headers : List String) (hm : HeaderMapping) (rows : List (List String)),
      (rows.foldl (csvStep headers hm) []).map (fun it => it.topic) =
        firstDedup (csvTopicKeys headers hm rows)) :=
  ⟨excelTopics_eq_firstDedup, csvTopics_eq_firstDedup⟩

/-- C6 (amended): in the workbook import path the topic column is the first
header containing `topic` or `topics` (equivalently just `topic`, since
`topics` contains it) and not containing `sub`; `technology` is not a synonym
in this path.  A selected header never contains `sub`, and when no header
qualifies the sheet is skipped with the missing-topic-column condition. -/
theorem c6_amended :
    (∀ headers, importTopicIdx headers = amendedTopicResolver headers) ∧
    (∀ headers i, importTopicIdx headers = some i →
      ∃ h, headers.get? i = some h ∧ strHasSub (lc h) "sub" = false) ∧
    (∀ sheetName (rows : List (List String)),
      lc sheetName ≠ "readme" → lc sheetName ≠ "instructions" →
      ¬ rows.length ≤ 1 →
      importTopicIdx ((rows.headD []).map trimStr) = none →
      importSheet sheetName rows = .skippedNoTopic) := by
  refine ⟨fun headers => ?_, fun headers i h => ?_, fun sheetName rows h1 h2 h3 h4 => ?_⟩
  · unfold importTopicIdx amendedTopicResolver
    refine findIdx?_congr (fun a => ?_) headers 0
    by_cases hs : strHasSub (lc a) "topics" = true
    · rw [hs, strHasSub_topic_of_topics hs]
      rfl
    · rw [Bool.not_eq_true] at hs
      rw [hs, Bool.or_false]
  · obtain ⟨a, ha, hpa⟩ := findIdx?_some_pred (p := fun h =>
      strHasSub (lc h) "topic" && !(strHasSub (lc h) "sub")) h
    simp only [Nat.sub_zero] at ha
    refine ⟨a, ha, ?_⟩
    have hpa' : strHasSub (lc a) "topic" = true ∧ strHasSub (lc a) "sub" = false := by
      simpa using hpa
    exact hpa'.2
  · unfold importSheet
    have hname : ¬ ((lc sheetName = "readme" || lc sheetName = "instructions") = true) := by
      simp [h1, h2]
    rw [if_neg hname, if_neg h3]
    dsimp only
    rw [h4]

/-- Witness for C6 (amended) at concrete inputs: the resolvers agree on a
sample header row, a selected topic header is `sub`-free, and a sheet whose
only header is "Technology" is skipped. -/
theorem c6_amended_witness :
    importTopicIdx ["Sub-Topics", "My Topic"] =
      amendedTopicResolver ["Sub-Topics", "My Topic"] ∧
    (∃ h, ["Sub-Topics", "My Topic"].get? 1 = some h ∧ strHasSub (lc h) "sub" = false) ∧
    importSheet "S" [["Technology"], ["React"]] = .skippedNoTopic :=
  ⟨c6_amended.1 ["Sub-Topics", "My Topic"],
   c6_amended.2.1 ["Sub-Topics", "My Topic"] 1 (by decide),
   c6_amended.2.2 "S" [["Technology"], ["React"]] (by decide) (by decide)
     (by decide) (by decide)⟩

/-- C8 (counterexample): the CSV upload path keys its topic map on the raw,
untrimmed topic cell; two rows whose topic cells differ only in surrounding
whitespace produce two distinct records instead of one. -/
theorem c8_counterexample :
    trimStr "A " = trimStr "A" ∧
    processCSVGrid [["Topic"], ["A"], ["A "]] "n" "" =
      .ok ⟨"n", "", ⟨"Topic", "Sub-Topics", "Projects", "Status"⟩,
        [⟨"A", [], [], "Yet to Start"⟩, ⟨"A ", [], [], "Yet to Start"⟩]⟩ := by
  refine ⟨by decide, by rfl⟩

/-- C2 (amended): project cells are split like sub-topic cells only in the
CSV path (a cell with a line feed is split into trimmed non-empty tokens, one
without yields its single trimmed token); in the workbook import path the
whole trimmed cell is always the single token.  Per topic, the workbook path
stores exactly the first-occurrence dedup of its token stream, while the CSV
path stores a list whose first-occurrence dedup equals the stream's dedup
(intra-cell duplicates of a topic's first row are kept verbatim). -/
theorem c2_amended :
    (∀ (cols : Cols) (rows : List (List String)),
      List.Forall₂ projRelE ((rows.foldl (excelStep cols) ([], none)).1)
        (excelProjReplay cols rows)) ∧
    (∀ (headers : List String) (hm : HeaderMapping) (rows : List (List String)),
      List.Forall₂ projRelC (rows.foldl (csvStep headers hm) [])
        (csvProjReplay headers hm rows)) :=
  ⟨fun cols rows => excelFold_projRel cols rows ([], none) ([], none) List.Forall₂.nil rfl,
   fun headers hm rows => csvFold_projRel headers hm rows [] [] List.Forall₂.nil⟩

/-- C4: status merging is monotone in the priority order
"Yet to Start" < "In Progress" < "Completed" in both ingestion paths: from
any aggregation state, once a topic's status is "Completed" no later row
changes it, and processing further rows never lowers a topic's priority (so a
later "Yet to Start" signal never downgrades). -/
theorem c4_status_monotone (cols : Cols) (stE : List RoadmapItem × Option String)
    (rowsE : List (List String)) (tE : String)
    (headers : List String) (hm : HeaderMapping) (itemsC : List RoadmapItem)
    (rowsC : List (List String)) (tC : String) :
    (statusOf stE.1 tE = some "Completed" →
      statusOf ((rowsE.foldl (excelStep cols) stE)).1 tE = some "Completed") ∧
    optPriority (statusOf stE.1 tE) ≤
      optPriority (statusOf ((rowsE.foldl (excelStep cols) stE)).1 tE) ∧
    (statusOf itemsC tC = some "Completed" →
      statusOf (rowsC.foldl (csvStep headers hm) itemsC) tC = some "Completed") ∧
    optPriority (statusOf itemsC tC) ≤
      optPriority (statusOf (rowsC.foldl (csvStep headers hm) itemsC) tC) :=
  ⟨(excelFold_statusOf cols tE rowsE stE).1, (excelFold_statusOf cols tE rowsE stE).2,
   (csvFold_statusOf headers hm tC rowsC itemsC).1,
   (csvFold_statusOf headers hm tC rowsC itemsC).2⟩

/-- Witness for C4 at a concrete input: a completed topic stays completed
through a later "Yet to Start" row in both paths. -/
theorem c4_status_monotone_witness :
    statusOf (([["T", "yet to start"]].foldl (excelStep ⟨0, none, none, some 1⟩)
        ([⟨"T", [], [], "Completed"⟩], some "T"))).1 "T" = some "Completed" ∧
    statusOf ([["T", "yet to start"]].foldl
        (csvStep ["Topic", "Status"] ⟨some "Topic", none, none, some "Status"⟩)
        [⟨"T", [], [], "Completed"⟩]) "T" = some "Completed" :=
  ⟨(c4_status_monotone ⟨0, none, none, some 1⟩ ([⟨"T", [], [], "Completed"⟩], some "T")
      [["T", "yet to start"]] "T" ["Topic", "Status"]
      ⟨some "Topic", none, none, some "Status"⟩ [⟨"T", [], [], "Completed"⟩]
      [["T", "yet to start"]] "T").1 (by rfl),
   (c4_status_monotone ⟨0, none, none, some 1⟩ ([⟨"T", [], [], "Completed"⟩], some "T")
      [["T", "yet to start"]] "T" ["Topic", "Status"]
      ⟨some "Topic", none, none, some "Status"⟩ [⟨"T", [], [], "Completed"⟩]
      [["T", "yet to start"]] "T").2.2.1 (by rfl)⟩

/-- C9: the ingestion sink is a by-name upsert.  When some stored tech stack
has the target name, the first such record gets its `description`, `headers`
and `roadmapItems` replaced wholesale with the new values — its `name` is
untouched and every other record is untouched; when no record has the name, a
new tech stack with exactly those fields is appended. -/
theorem c9_upsert_overwrite (store : List TechStack) (name desc : String)
    (hdrs : HeadersRec) (items : List RoadmapItem) :
    (∀ (ts₀ : TechStack) (l₁ l₂ : List TechStack),
      store = l₁ ++ ts₀ :: l₂ → ts₀.name = name → (∀ ts ∈ l₁, ts.name ≠ name) →
      upsertTechStack store name desc hdrs items =
        l₁ ++ { name := ts₀.name, description := desc, headers := hdrs,
                roadmapItems := items } :: l₂) ∧
    ((∀ ts ∈ store, ts.name ≠ name) →
      upsertTechStack store name desc hdrs items =
        store ++ [⟨name, desc, hdrs, items⟩]) := by
  constructor
  · intro ts₀ l₁ l₂ hsplit hname hmiss
    subst hsplit
    induction l₁ with
    | nil =>
      simp only [List.nil_append, upsertTechStack, if_pos hname]
    | cons ts l₁ ih =>
      have hts : ts.name ≠ name := hmiss ts (List.mem_cons_self ts l₁)
      simp only [List.cons_append, upsertTechStack, if_neg hts, List.append_eq]
      rw [ih (fun x hx => hmiss x (List.mem_cons_of_mem ts hx))]
  · intro hmiss
    induction store with
    | nil => rfl
    | cons ts store ih =>
      have hts : ts.name ≠ name := hmiss ts (List.mem_cons_self ts store)
      simp only [upsertTechStack, if_neg hts, List.cons_append]
      rw [ih (fun x hx => hmiss x (List.mem_cons_of_mem ts hx))]

/-- Witness for C9 at concrete inputs: overwriting an existing "React" stack
replaces its fields and leaves the neighbour untouched; a fresh name is
appended. -/
theorem c9_upsert_overwrite_witness :
    upsertTechStack [⟨"Vue", "v", ⟨"T", "S", "P", "St"⟩, []⟩,
        ⟨"React", "old", ⟨"T", "S", "P", "St"⟩, [⟨"Old", [], [], "Completed"⟩]⟩]
      "React" "new" ⟨"Topic", "Sub-Topics", "Projects", "Status"⟩ [] =
      [⟨"Vue", "v", ⟨"T", "S", "P", "St"⟩, []⟩,
       ⟨"React", "new", ⟨"Topic", "Sub-Topics", "Projects", "Status"⟩, []⟩] ∧
    upsertTechStack [⟨"Vue", "v", ⟨"T", "S", "P", "St"⟩, []⟩]
      "React" "new" ⟨"Topic", "Sub-Topics", "Projects", "Status"⟩ [] =
      [⟨"Vue", "v", ⟨"T", "S", "P", "St"⟩, []⟩,
       ⟨"React", "new", ⟨"Topic", "Sub-Topics", "Projects", "Status"⟩, []⟩] :=
  ⟨(c9_upsert_overwrite [⟨"Vue", "v", ⟨"T", "S", "P", "St"⟩, []⟩,
        ⟨"React", "old", ⟨"T", "S", "P", "St"⟩, [⟨"Old", [], [], "Completed"⟩]⟩]
      "React" "new" ⟨"Topic", "Sub-Topics", "Projects", "Status"⟩ []).1
      ⟨"React", "old", ⟨"T", "S", "P", "St"⟩, [⟨"Old", [], [], "Completed"⟩]⟩
      [⟨"Vue", "v", ⟨"T", "S", "P", "St"⟩, []⟩] [] rfl rfl (by decide),
   (c9_upsert_overwrite [⟨"Vue", "v", ⟨"T", "S", "P", "St"⟩, []⟩]
      "React" "new" ⟨"Topic", "Sub-Topics", "Projects", "Status"⟩ []).2 (by decide)⟩

/-- C10: deleting a roadmap item from an existing tech stack always succeeds
with HTTP 200: the stored items become exactly the previous items minus any
whose id equals `itemId`, and when no item matches, the items are unchanged —
there is no not-found error for the item. -/
theorem find?_map_replace (store : List StoredTechStack) (d d' : StoredTechStack)
    (tsId : String) (hid : d.id = tsId) (hid' : d'.id = d.id)
    (h : store.find? (fun e => e.id = tsId) = some d) :
    (store.map (fun e => if e.id = d.id then d' else e)).find? (fun e => e.id = tsId) =
      some d' := by
  induction store with
  | nil => simp at h
  | cons e store ih =>
    by_cases he : e.id = tsId
    · have hed : e = d := by
        rwa [List.find?_cons_of_pos _ (by simp [he]), Option.some.injEq] at h
      subst hed
      simp only [List.map_cons, if_pos rfl]
      exact List.find?_cons_of_pos _ (by simp [hid', hid])
    · have h' : store.find? (fun x => x.id = tsId) = some d := by
        rwa [List.find?_cons_of_neg _ (by simp [he])] at h
      have hene : ¬ e.id = d.id := fun e2 => he (e2.trans hid)
      simp only [List.map_cons, if_neg hene]
      rw [List.find?_cons_of_neg _ (by simp [he])]
      exact ih h'

theorem c10_deleteRoadmapItem (store : List StoredTechStack) (tsId itemId : String)
    (d : StoredTechStack) (h : store.find? (fun e => e.id = tsId) = some d) :
    (deleteRoadmapItem store tsId itemId).1 = ⟨200, true⟩ ∧
    ((deleteRoadmapItem store tsId itemId).2.find? (fun e => e.id = tsId) =
      some { d with roadmapItems := d.roadmapItems.filter (fun it => it.id ≠ itemId) }) ∧
    ((∀ it ∈ d.roadmapItems, it.id ≠ itemId) →
      (deleteRoadmapItem store tsId itemId).2.find? (fun e => e.id = tsId) = some d) := by
  have hid : d.id = tsId := by simpa using List.find?_some h
  have hmain : (deleteRoadmapItem store tsId itemId).2.find? (fun e => e.id = tsId) =
      some { d with roadmapItems := d.roadmapItems.filter (fun it => it.id ≠ itemId) } := by
    unfold deleteRoadmapItem
    rw [h]
    exact find?_map_replace store d _ tsId hid rfl h
  refine ⟨?_, hmain, ?_⟩
  · unfold deleteRoadmapItem
    rw [h]
  · intro hnone
    have hfilter : d.roadmapItems.filter (fun it => it.id ≠ itemId) = d.roadmapItems :=
      List.filter_eq_self.mpr (fun a ha => by simpa using hnone a ha)
    rw [hfilter] at hmain
    exact hmain

/-- Witness for C10 at a concrete input: deleting an existing item succeeds
and removes it; deleting a missing item succeeds and changes nothing. -/
theorem c10_deleteRoadmapItem_witness :
    (deleteRoadmapItem [⟨"ts1", "React", [⟨"i1", ⟨"Hooks", [], [], "Completed"⟩⟩]⟩]
        "ts1" "i1").1 = ⟨200, true⟩ ∧
    (deleteRoadmapItem [⟨"ts1", "React", [⟨"i1", ⟨"Hooks", [], [], "Completed"⟩⟩]⟩]
        "ts1" "i1").2.find? (fun e => e.id = "ts1") = some ⟨"ts1", "React", []⟩ ∧
    (deleteRoadmapItem [⟨"ts1", "React", [⟨"i1", ⟨"Hooks", [], [], "Completed"⟩⟩]⟩]
        "ts1" "missing").2.find? (fun e => e.id = "ts1") =
      some ⟨"ts1", "React", [⟨"i1", ⟨"Hooks", [], [], "Completed"⟩⟩]⟩ :=
  ⟨(c10_deleteRoadmapItem [⟨"ts1", "React", [⟨"i1", ⟨"Hooks", [], [], "Completed"⟩⟩]⟩]
      "ts1" "i1" ⟨"ts1", "React", [⟨"i1", ⟨"Hooks", [], [], "Completed"⟩⟩]⟩ (by rfl)).1,
   (c10_deleteRoadmapItem [⟨"ts1", "React", [⟨"i1", ⟨"Hooks", [], [], "Completed"⟩⟩]⟩]
      "ts1" "i1" ⟨"ts1", "React", [⟨"i1", ⟨"Hooks", [], [], "Completed"⟩⟩]⟩ (by rfl)).2.1,
   (c10_deleteRoadmapItem [⟨"ts1", "React", [⟨"i1", ⟨"Hooks", [], [], "Completed"⟩⟩]⟩]
      "ts1" "missing" ⟨"ts1", "React", [⟨"i1", ⟨"Hooks", [], [], "Completed"⟩⟩]⟩
      (by rfl)).2.2 (by decide)⟩

/-- C1 (counterexample): the two ingestion paths are not equivalent on every
workbook.  On the sheet below the import path carries the current topic "A"
across the middle row, whose topic cell is blank, and attributes the
sub-topic "Y" to "A"; the converter drops that row entirely, so the
convert-then-upload path loses "Y". -/
theorem c1_counterexample :
    importItems "Sheet1" [["Topic", "Sub-Topics"], ["A", "X"], ["", "Y"], ["A", "Z"]] =
      some [⟨"A", ["X", "Y", "Z"], [], "Yet to Start"⟩] ∧
    convertThenUpload "Sheet1"
        [["Topic", "Sub-Topics"], ["A", "X"], ["", "Y"], ["A", "Z"]] =
      some [⟨"A", ["X", "Z"], [], "Yet to Start"⟩] :=
  ⟨rfl, rfl⟩

/-- C1 (amended): on workbooks where the two paths resolve the same columns,
every data row has a non-blank topic cell already free of surrounding
whitespace (so the converter drops no row and raw and trimmed keys agree), no
projects cell is newline-bearing or whitespace-only (the one splitting rule
that differs between the paths), the sheet has at least a header and two data
rows (the converter skips smaller sheets), and the emitted header labels are
pairwise distinct and are re-resolved positionally by the upload stage, both
the import path and the convert-then-upload path produce the same topics in
the same order, and per topic the same sub-topic set, project set (both up to
first-occurrence deduplication) and final completion status. -/
theorem c1_amended (sheetName : String) (rows : List (List String)) (ti : Nat)
    (hs : List String) (hhs : hs = (rows.headD []).map trimStr)
    (h1 : lc sheetName ≠ "readme") (h2 : lc sheetName ≠ "instructions")
    (h3 : 3 ≤ rows.length)
    (h4 : importTopicIdx hs = some ti)
    (h5 : findColumnIndex hs ["topics", "topic", "technology"] = some ti)
    (h6 : importSubIdx hs =
      findColumnIndex hs ["sub-topics", "subtopics", "sub-topic", "subtopic"])
    (h7 : importProjIdx hs =
      findColumnIndex hs
        ["project/app to build", "projects", "projects/apps built", "application"])
    (h8 : importStatusIdx hs =
      findColumnIndex hs ["status of completion", "status", "completion"])
    (h9 : ∀ row ∈ rows.drop 1,
      cellAt row ti ≠ "" ∧ trimStr (cellAt row ti) = cellAt row ti)
    (h10 : ∀ row ∈ rows.drop 1, optCell row (importProjIdx hs) = "" ∨
      (trimStr (optCell row (importProjIdx hs)) ≠ "" ∧
       hasChar (optCell row (importProjIdx hs)) '\n' = false))
    (h11 : resolveCSVMapping (convertLabels sheetName rows) =
      positionalMapping (convertLabels sheetName rows))
    (h12 : (convertLabels sheetName rows).Nodup) :
    ∃ itemsI itemsU,
      importItems sheetName rows = some itemsI ∧
      convertThenUpload sheetName rows = some itemsU ∧
      itemsI.map (fun it => it.topic) = itemsU.map (fun it => it.topic) ∧
      List.Forall₂ (fun x y =>
        x.topic = y.topic ∧
        firstDedup x.subTopics = firstDedup y.subTopics ∧
        firstDedup x.projects = firstDedup y.projects ∧
        x.completionStatus = y.completionStatus) itemsI itemsU := by
  obtain ⟨r, rest, hdr1⟩ : ∃ r rest, rows.drop 1 = r :: rest := by
    cases hd : rows.drop 1 with
    | nil =>
      exfalso
      have hl : (rows.drop 1).length = rows.length - 1 := List.length_drop 1 rows
      rw [hd] at hl
      simp at hl
      omega
    | cons r rest => exact ⟨r, rest, rfl⟩
  have hr1 := h9 r (by rw [hdr1]; exact List.mem_cons_self r rest)
  have hne1 : ((rows.drop 1).foldl
      (excelStep ⟨ti, importSubIdx hs, importProjIdx hs, importStatusIdx hs⟩)
      ([], none)).1 ≠ [] :=
    excelItems_ne_nil ⟨ti, importSubIdx hs, importProjIdx hs, importStatusIdx hs⟩
      (rows.drop 1) r rest hdr1 hr1.1 (by rw [hr1.2]; exact hr1.1)
  have himp := importItems_reduce sheetName rows ti hs hhs h1 h2 (by omega) h4 hne1
  have hconv := convertSheet_reduce sheetName rows ti hs hhs h1 h2 h3 h5
    (fun row hr => (h9 row hr).1)
  rw [← h6, ← h7, ← h8] at hconv
  have hlabels : convertLabels sheetName rows = papaHeaders (convHeaderRow hs ti) := by
    unfold convertLabels
    rw [hconv]
    rfl
  have hls : papaHeaders (convHeaderRow hs ti) =
      [trimStr (headerOr hs (some ti) "Topic"),
       trimStr (convHeaderLabel hs
         (findColumnIndex hs ["sub-topics", "subtopics", "sub-topic", "subtopic"])
         "Sub-Topics"),
       trimStr (convHeaderLabel hs
         (findColumnIndex hs
           ["project/app to build", "projects", "projects/apps built", "application"])
         "Projects"),
       trimStr (convHeaderLabel hs
         (findColumnIndex hs ["status of completion", "status", "completion"])
         "Status")] := rfl
  obtain ⟨A, B, C, D, hABCD⟩ : ∃ A B C D,
      papaHeaders (convHeaderRow hs ti) = [A, B, C, D] := ⟨_, _, _, _, hls⟩
  rw [hlabels, hABCD] at h11 h12
  have hmemA : A ∉ [B, C, D] := (List.nodup_cons.mp h12).1
  have hndB : List.Nodup [B, C, D] := (List.nodup_cons.mp h12).2
  have hmemB : B ∉ [C, D] := (List.nodup_cons.mp hndB).1
  have hndC : List.Nodup [C, D] := (List.nodup_cons.mp hndB).2
  have hmemC : C ∉ [D] := (List.nodup_cons.mp hndC).1
  have hba : ¬ B = A := fun e => hmemA (by rw [← e]; exact List.mem_cons_self B [C, D])
  have hca : ¬ C = A := fun e =>
    hmemA (by rw [← e]; exact List.mem_cons_of_mem B (List.mem_cons_self C [D]))
  have hda : ¬ D = A := fun e =>
    hmemA (by
      rw [← e]
      exact List.mem_cons_of_mem B (List.mem_cons_of_mem C (List.mem_cons_self D [])))
  have hcb : ¬ C = B := fun e => hmemB (by rw [← e]; exact List.mem_cons_self C [D])
  have hdb : ¬ D = B := fun e =>
    hmemB (by rw [← e]; exact List.mem_cons_of_mem C (List.mem_cons_self D []))
  have hdc : ¬ D = C := fun e => hmemC (by rw [← e]; exact List.mem_cons_self D [])
  have hmap2 : resolveCSVMapping (papaHeaders (convHeaderRow hs ti)) =
      positionalMapping (papaHeaders (convHeaderRow hs ti)) := by
    rw [hABCD]
    exact h11
  have hup : convertThenUpload sheetName rows = some
      ((rows.drop 1).foldl (fun acc row =>
        csvStep [A, B, C, D] (positionalMapping [A, B, C, D]) acc
          (convRow ti (importSubIdx hs) (importProjIdx hs) (importStatusIdx hs) row))
        []) := by
    unfold convertThenUpload
    rw [hconv]
    dsimp only
    rw [processCSVGrid_reduce (convHeaderRow hs ti)
      ((rows.drop 1).map (convRow ti (importSubIdx hs) (importProjIdx hs)
        (importStatusIdx hs))) sheetName "" (by rw [hdr1]; simp) hmap2]
    dsimp only
    rw [hABCD, List.foldl_map]
  have hrel := c1_fold ti (importSubIdx hs) (importProjIdx hs) (importStatusIdx hs)
    A B C D hba hca hda hcb hdb hdc (rows.drop 1) [] [] none
    (fun row hr => ⟨(h9 row hr).1, (h9 row hr).2, h10 row hr⟩) List.Forall₂.nil
  refine ⟨_, _, himp, hup, ?_, ?_⟩
  · exact forall2_map_eq (fun x y hxy => hxy.1) hrel
  · exact hrel.imp (fun x y hxy => ⟨hxy.1, by rw [hxy.2.1, firstDedup_idem],
      by rw [hxy.2.2.1, firstDedup_idem], hxy.2.2.2⟩)

/-- Witness for C1 (amended) at a concrete workbook sheet satisfying all the
side conditions: both paths agree up to first-occurrence deduplication. -/
theorem c1_amended_witness :
    ∃ itemsI itemsU,
      importItems "Tech"
          [["Topic", "Sub-Topics", "Projects", "Status"],
           ["A", "X\nY", "P1", "done"], ["A", "Z", "P1", "ongoing"]] = some itemsI ∧
      convertThenUpload "Tech"
          [["Topic", "Sub-Topics", "Projects", "Status"],
           ["A", "X\nY", "P1", "done"], ["A", "Z", "P1", "ongoing"]] = some itemsU ∧
      itemsI.map (fun it => it.topic) = itemsU.map (fun it => it.topic) ∧
      List.Forall₂ (fun x y =>
        x.topic = y.topic ∧
        firstDedup x.subTopics = firstDedup y.subTopics ∧
        firstDedup x.projects = firstDedup y.projects ∧
        x.completionStatus = y.completionStatus) itemsI itemsU :=
  c1_amended "Tech"
    [["Topic", "Sub-Topics", "Projects", "Status"],
     ["A", "X\nY", "P1", "done"], ["A", "Z", "P1", "ongoing"]] 0
    ["Topic", "Sub-Topics", "Projects", "Status"] (by decide)
    (by decide) (by decide) (by decide) (by decide) (by decide) (by decide)
    (by decide) (by decide) (by decide) (by decide) (by decide) (by decide)

end RoadmapsBackend
